import Mathlib

/-!
# FnordMetric: the time-series engine (libtsdb) and the metric layer (metricd)

The first part embeds the storage engine that `src/libtsdb/test/smoketest.cc`
exercises.  The engine sources (`tsdb.cc`, `cursor.cc`, the page codec and the
varint codec) are not part of the source tree at hand, only their smoke test
is; every engine definition below is therefore modelled from the specification
and says so in its doc comment.  Pages are modelled as decoded structures (the
header fields and the stream of delta and value pairs), not as bytes.

The second part embeds `src/metricd/metric.cc`; the classes and functions it
calls but does not define are parameters or are modelled by their constructor
arguments.

The third part holds the theorems: first the invariant of the engine state and
what cursors read, then the claims.

Conventions: `uint64_t` values are natural numbers, byte strings are lists of
natural numbers, a C++ `bool` result that carries an error kind in the
specification is a `Status`.
-/

namespace tsdb

/-- Modelled from the spec: the record type tag of a series or page (§3,
`UINT64 | INT64 | FLOAT64`); `tsdb.h` is missing. -/
inductive PageType where
  | UINT64
  | INT64
  | FLOAT64
  deriving DecidableEq, Repr

/-- Modelled from the spec: the error kinds of §7; `tsdb.h` is missing. -/
inductive Error where
  | IoError
  | CorruptionError
  | OutOfOrder
  | TypeMismatch
  | UnknownSeries
  | AlreadyExists
  | PageFull
  deriving DecidableEq, Repr

/-- Modelled from the spec: outcome of a mutating call; the C++ API returns
`bool` (`true` exactly for `ok`), the specification names the error kind. -/
inductive Status where
  | ok
  | error (e : Error)
  deriving DecidableEq, Repr

/-- Modelled from the spec: one `(timestamp, value)` record (§1).  The value is
the 8-byte word that is stored (§4.3: fixed-width form, 8 bytes for every
type). -/
structure Record where
  ts : Nat
  value : Nat
  deriving DecidableEq, Repr

/-! ## Page codec (§4.3) -/

/-- Modelled from the spec: a data page (§3, §6): series id, type tag, record
count, smallest and largest timestamp, and the record stream as pairs
`(delta from min, value)`. -/
structure DataPage where
  series_id : Nat
  type : PageType
  count : Nat
  min_ts : Nat
  max_ts : Nat
  body : List (Nat × Nat)
  deriving DecidableEq, Repr

/-- Modelled from the spec: the record capacity of a page, "derived from the
page size and encoded-size estimate" (§4.3).  The estimate used is the §6 data
page layout: 43 bytes of header and checksum (magic 4, series id 8, type 1,
count varint at most 10, min 8, max 8, CRC 4) and at most 18 bytes per record
(delta varint at most 10, value 8). -/
def pageCapacity (page_size_log2 : Nat) : Nat :=
  (2 ^ page_size_log2 - 43) / 18

/-- Modelled from the spec: a page that is started with its first record. -/
def newPage (sid : Nat) (ty : PageType) (r : Record) : DataPage :=
  { series_id := sid, type := ty, count := 1, min_ts := r.ts, max_ts := r.ts,
    body := [(0, r.value)] }

/-- Modelled from the spec: encoding one more record into a page (§4.3); it
"fails with `PageFull` when the next record would exceed the page body
budget". -/
def appendRecord (cap : Nat) (p : DataPage) (r : Record) : Except Error DataPage :=
  if cap ≤ p.count then .error .PageFull
  else .ok { p with count := p.count + 1, max_ts := r.ts,
                    body := p.body ++ [(r.ts - p.min_ts, r.value)] }

/-- Modelled from the spec: packing with a page in progress; on `PageFull` the
current page is sealed and another one is started (§4.3, §4.6 step 1). -/
def packInto (cap sid : Nat) (ty : PageType) : DataPage → List Record → List DataPage
  | cur, [] => [cur]
  | cur, r :: rs =>
    match appendRecord cap cur r with
    | .ok cur1 => packInto cap sid ty cur1 rs
    | .error _ => cur :: packInto cap sid ty (newPage sid ty r) rs

/-- Modelled from the spec: "pack its buffered records into new data pages via
the page codec" (§4.6 step 1). -/
def pack (cap sid : Nat) (ty : PageType) : List Record → List DataPage
  | [] => []
  | r :: rs => packInto cap sid ty (newPage sid ty r) rs

/-- A list of numbers that never decreases. -/
def nonDecreasing : List Nat → Bool
  | a :: b :: rest => decide (a ≤ b) && nonDecreasing (b :: rest)
  | _ => true

/-- Modelled from the spec: the min/max of the header "are consistent with the
decoded stream" (§4.3): the first delta is zero and min plus the last delta is
max.  A page without records carries no constraint. -/
def minMaxConsistent (p : DataPage) : Bool :=
  match p.body.head?, p.body.getLast? with
  | some first, some last => decide (first.1 = 0) && decide (p.min_ts + last.1 = p.max_ts)
  | _, _ => true

/-- Modelled from the spec: decoding a data page (§4.3).  It "validates: type
tag equals the expected type; record count and min/max are consistent with the
decoded stream; deltas never decrease.  Any mismatch raises
`CorruptionError`". -/
def decodePage (ty : PageType) (p : DataPage) : Except Error (List Record) :=
  if p.type ≠ ty then .error .CorruptionError
  else if p.count ≠ p.body.length then .error .CorruptionError
  else if !nonDecreasing (p.body.map Prod.fst) then .error .CorruptionError
  else if !minMaxConsistent p then .error .CorruptionError
  else .ok (p.body.map fun dv => { ts := p.min_ts + dv.1, value := dv.2 })

/-! ## Series index (§4.4), pages and the file (§3, §6) -/

/-- Modelled from the spec: the index entry of one series (§4.4, §6): id, type,
metadata blob, last committed timestamp and the ordered page list. -/
structure SeriesEntry where
  id : Nat
  type : PageType
  metadata : List Nat
  last_ts : Nat
  pages : List Nat
  deriving DecidableEq, Repr

/-- Modelled from the spec: an index root (§4.4, §4.6, §6): its generation
number, the series entries and the free list. -/
structure IndexRoot where
  generation : Nat
  series : List SeriesEntry
  free_list : List Nat
  deriving DecidableEq, Repr

/-- Modelled from the spec: "each page is either free, an index page, or a data
page belonging to exactly one series" (§3). -/
inductive Page where
  | free
  | index (root : IndexRoot)
  | data (page : DataPage)
  deriving DecidableEq, Repr

/-- Modelled from the spec: the superblock (§6): magic, format version, page
size log2 and the two index-root slots (page id and generation each). -/
structure Superblock where
  magic : List Nat
  version : Nat
  page_size_log2 : Nat
  root0 : Nat
  gen0 : Nat
  root1 : Nat
  gen1 : Nat
  deriving DecidableEq, Repr

/-- Modelled from the spec: the database file (§3): a superblock and the array
of pages. -/
structure File where
  superblock : Superblock
  pages : List Page
  deriving DecidableEq, Repr

/-- Modelled from the spec: an open database (§5 "resource ownership"): the
file, the in-memory active-root pointer, the in-memory index and the per-series
write buffers (§4.5). -/
structure Database where
  file : File
  active : Nat
  index : IndexRoot
  buffers : List (Nat × List Record)
  deriving DecidableEq, Repr

/-- The bytes of the magic `"TSDB"` (§6). -/
def superblockMagic : List Nat := [84, 83, 68, 66]

/-- Look a series up by id in an index. -/
def findSeries : List SeriesEntry → Nat → Option SeriesEntry
  | [], _ => none
  | e :: rest, sid => if e.id = sid then some e else findSeries rest sid

/-- The write buffer of a series (empty when there is none). -/
def bufferOf : List (Nat × List Record) → Nat → List Record
  | [], _ => []
  | b :: rest, sid => if b.1 = sid then b.2 else bufferOf rest sid

/-- Modelled from the spec: "inserts append" (§4.5). -/
def appendBuffer : List (Nat × List Record) → Nat → Record → List (Nat × List Record)
  | [], sid, r => [(sid, [r])]
  | b :: rest, sid, r =>
    if b.1 = sid then (b.1, b.2 ++ [r]) :: rest else b :: appendBuffer rest sid r

/-! ## Page store (§4.2) -/

/-- Modelled from the spec: `allocatePage` "pops from free list, growing the
file by one page if empty" (§4.2). -/
def allocatePage (pages : List Page) (free_list : List Nat) : Nat × List Page × List Nat :=
  match free_list with
  | id :: rest => (id, pages, rest)
  | [] => (pages.length, pages ++ [Page.free], [])

/-- Modelled from the spec: `writePage(page_id, buf)` (§4.2). -/
def writePage (pages : List Page) (id : Nat) (p : Page) : List Page :=
  pages.set id p

/-- Modelled from the spec: `readPage(page_id, buf)` (§4.2). -/
def readPage (pages : List Page) (id : Nat) : Option Page :=
  pages[id]?

/-- Modelled from the spec: reading and decoding the data page with a given id;
anything but a decodable data page of the expected type is corruption. -/
def readDataPage (pages : List Page) (ty : PageType) (id : Nat) : Except Error (List Record) :=
  match readPage pages id with
  | some (.data p) => decodePage ty p
  | _ => .error .CorruptionError

/-! ## Database operations (§6) -/

/-- Modelled from the spec: `createDatabase`: "fresh file, superblock and empty
index written" (§3).  The empty index root is page 0 with generation 1 in slot
0; slot 1 is stale (generation 0). -/
def createDatabase (page_size_log2 : Nat) : Database :=
  let root : IndexRoot := { generation := 1, series := [], free_list := [] }
  { file := { superblock := { magic := superblockMagic, version := 1,
                              page_size_log2 := page_size_log2,
                              root0 := 0, gen0 := 1, root1 := 0, gen1 := 0 },
              pages := [Page.index root] },
    active := 0, index := root, buffers := [] }

/-- Modelled from the spec: the index root a superblock slot refers to, when it
validates (the page is an index root of the generation the slot records). -/
def loadRoot (pages : List Page) (root gen : Nat) : Option IndexRoot :=
  match readPage pages root with
  | some (.index r) => if r.generation = gen then some r else none
  | _ => none

/-- Modelled from the spec: `openDatabase`: "superblock validated, active index
loaded" (§3); recovery "picks the slot with the newer generation number whose
checksum validates, else the other.  If neither validates, opening fails with
`CorruptionError`" (§4.6). -/
def openDatabase (f : File) : Except Error Database :=
  let sb := f.superblock
  if sb.magic ≠ superblockMagic ∨ sb.version ≠ 1 then .error .CorruptionError
  else
    let newer : Nat := if sb.gen0 < sb.gen1 then 1 else 0
    let slot (k : Nat) : Option IndexRoot :=
      if k = 0 then loadRoot f.pages sb.root0 sb.gen0 else loadRoot f.pages sb.root1 sb.gen1
    match slot newer with
    | some r => .ok { file := f, active := newer, index := r, buffers := [] }
    | none =>
      match slot (1 - newer) with
      | some r => .ok { file := f, active := 1 - newer, index := r, buffers := [] }
      | none => .error .CorruptionError

/-- Modelled from the spec: closing a database leaves its file (§3). -/
def closeDatabase (db : Database) : File := db.file

/-- Modelled from the spec: `createSeries(series_id, type, metadata_bytes)`:
"returns false if the id exists" (§6); a new series has no pages and last
timestamp 0. -/
def createSeries (db : Database) (sid : Nat) (ty : PageType) (metadata : List Nat) :
    Status × Database :=
  match findSeries db.index.series sid with
  | some _ => (.error .AlreadyExists, db)
  | none =>
    (.ok, { db with index := { db.index with
              series := db.index.series ++
                [{ id := sid, type := ty, metadata := metadata, last_ts := 0, pages := [] }] } })

/-- Modelled from the spec: `insert<T>(series, ts, v)` (§4.5, §6, §7).  An
unknown id is `UnknownSeries`.  The insert "succeeds only if
`ts ≥ last_committed_timestamp(series)` AND `ts ≥ last_buffered_timestamp(series)`.
Otherwise it fails with `OutOfOrder` and the record is not buffered"; the type
"must match" (`TypeMismatch`).  The specification does not say which of the
two failures an insert of the wrong type below the last timestamp reports; here
the ordering test comes first.  This is the strict contract the specification
chooses in §9; `smoketest.cc` lines 133 to 135 expect an insert below the last
committed timestamp to return true. -/
def insert (db : Database) (ty : PageType) (sid ts v : Nat) : Status × Database :=
  match findSeries db.index.series sid with
  | none => (.error .UnknownSeries, db)
  | some e =>
    if ts < e.last_ts then (.error .OutOfOrder, db)
    else
      match (bufferOf db.buffers sid).getLast? with
      | some r =>
        if ts < r.ts then (.error .OutOfOrder, db)
        else if e.type ≠ ty then (.error .TypeMismatch, db)
        else (.ok, { db with buffers := appendBuffer db.buffers sid { ts := ts, value := v } })
      | none =>
        if e.type ≠ ty then (.error .TypeMismatch, db)
        else (.ok, { db with buffers := appendBuffer db.buffers sid { ts := ts, value := v } })

/-- Modelled from the spec: `insertUInt64(series_id, ts, v)` (§6). -/
def insertUInt64 (db : Database) (sid ts v : Nat) : Status × Database :=
  insert db .UINT64 sid ts v

/-- Modelled from the spec: `insertInt64` (§6); the stored word is the
two-complement image of the signed value in 64 bits. -/
def insertInt64 (db : Database) (sid ts : Nat) (v : Int) : Status × Database :=
  insert db .INT64 sid ts (v % 2 ^ 64).toNat

/-- Modelled from the spec: `insertFloat64` (§6); the double is given by its
64-bit pattern, which is what is stored. -/
def insertFloat64 (db : Database) (sid ts bits : Nat) : Status × Database :=
  insert db .FLOAT64 sid ts bits

/-! ## Transaction manager (§4.6) -/

/-- Modelled from the spec: allocate a page id for each new data page and
write it (§4.6 steps 2 and 3); the ids come back in page order. -/
def writeDataPages (pages : List Page) (free_list : List Nat) :
    List DataPage → List Nat × List Page × List Nat
  | [] => ([], pages, free_list)
  | dp :: rest =>
    let a := allocatePage pages free_list
    let w := writeDataPages (writePage a.2.1 a.1 (Page.data dp)) a.2.2 rest
    (a.1 :: w.1, w.2.1, w.2.2)

/-- The part of the state a commit builds up: the page array, the free list and
the series entries of the next index. -/
structure CommitState where
  pages : List Page
  free_list : List Nat
  series : List SeriesEntry
  deriving DecidableEq, Repr

/-- Modelled from the spec: what commit does for one series (§4.5, §4.6 step
1): a non-empty buffer is drained "into freshly allocated pages via the page
codec" and the series' page list and last committed timestamp are updated; an
empty buffer is skipped. -/
def flushSeries (cap : Nat) (cs : CommitState) (b : Nat × List Record) :
    Except Error CommitState :=
  match b.2.getLast? with
  | none => .ok cs
  | some last =>
    match findSeries cs.series b.1 with
    | none => .error .UnknownSeries
    | some e =>
      let w := writeDataPages cs.pages cs.free_list (pack cap e.id e.type b.2)
      .ok { pages := w.2.1, free_list := w.2.2,
            series := cs.series.map fun x =>
              if x.id = b.1 then { x with pages := x.pages ++ w.1, last_ts := last.ts } else x }

/-- Modelled from the spec: "for each series with a non-empty buffer" (§4.6
step 1). -/
def flushAll (cap : Nat) : CommitState → List (Nat × List Record) → Except Error CommitState
  | cs, [] => .ok cs
  | cs, b :: rest =>
    match flushSeries cap cs b with
    | .ok cs1 => flushAll cap cs1 rest
    | .error e => .error e

/-- Modelled from the spec: `commit` (§4.6).  Data pages are packed, allocated
and written series by series (steps 1 to 3), then the new index root is
allocated and written with the next generation number (the index "is rewritten
whole on every commit"), the root marker goes into the currently inactive
superblock slot (step 4), the in-memory active-root pointer flips and the
in-memory index is replaced (step 5); the buffers are cleared.  No disk fault
is modelled, so the only failure is a buffer for a series the index does not
know; a failed commit leaves the database as it was. -/
def commit (db : Database) : Status × Database :=
  let sb := db.file.superblock
  match flushAll (pageCapacity sb.page_size_log2)
      { pages := db.file.pages, free_list := db.index.free_list, series := db.index.series }
      db.buffers with
  | .error e => (.error e, db)
  | .ok cs =>
    let a := allocatePage cs.pages cs.free_list
    let root : IndexRoot :=
      { generation := db.index.generation + 1, series := cs.series, free_list := a.2.2 }
    let pages := writePage a.2.1 a.1 (Page.index root)
    let sb1 : Superblock :=
      if db.active = 0 then { sb with root1 := a.1, gen1 := root.generation }
      else { sb with root0 := a.1, gen0 := root.generation }
    (.ok, { file := { superblock := sb1, pages := pages },
            active := if db.active = 0 then 1 else 0,
            index := root, buffers := [] })

/-! ## Cursor (§4.7) -/

/-- Modelled from the spec: a cursor (§4.7): the type, a read-only reference to
the page store and "a snapshot of that series' page-list and last-committed
timestamp at creation time", the position (page in the list, record in the
page), the one decoded page it owns and whether it points at a record. -/
structure Cursor where
  type : PageType
  store : List Page
  page_list : List Nat
  last_ts : Nat
  page_pos : Nat
  page : List Record
  rec_pos : Nat
  is_valid : Bool
  deriving DecidableEq, Repr

/-- Modelled from the spec: the cursor that points at nothing. -/
def Cursor.invalidate (c : Cursor) : Cursor :=
  { c with page := [], rec_pos := 0, is_valid := false }

/-- Modelled from the spec: position the cursor at the first record of the
`k`-th page of its page list, "reading and decoding pages on demand" (§2); past
the end of the list, or when the page does not decode, the cursor is invalid. -/
def Cursor.loadPage (c : Cursor) (k : Nat) : Cursor :=
  match c.page_list[k]? with
  | none => { c with page_pos := k, page := [], rec_pos := 0, is_valid := false }
  | some id =>
    match readDataPage c.store c.type id with
    | .ok recs =>
      { c with page_pos := k, page := recs, rec_pos := 0, is_valid := !recs.isEmpty }
    | .error _ => { c with page_pos := k, page := [], rec_pos := 0, is_valid := false }

/-- Modelled from the spec: `valid()` (§4.7). -/
def Cursor.valid (c : Cursor) : Bool := c.is_valid

/-- Modelled from the spec: `get(&ts, &val)` "read current record; undefined if
not valid" (§4.7); undefined is `none`. -/
def Cursor.get (c : Cursor) : Option Record :=
  if c.is_valid then c.page[c.rec_pos]? else none

/-- Modelled from the spec: `next()` "advance one record; returns false at end
(cursor becomes invalid)" (§4.7), "transparently spanning pages" (§2). -/
def Cursor.next (c : Cursor) : Bool × Cursor :=
  if !c.is_valid then (false, c)
  else if c.rec_pos + 1 < c.page.length then (true, { c with rec_pos := c.rec_pos + 1 })
  else
    let c1 := c.loadPage (c.page_pos + 1)
    (c1.is_valid, c1)

/-- Modelled from the spec: `next(&ts, &value)` as the smoke test uses it
(`smoketest.cc` lines 38 to 44): it hands out the current record and advances,
and returns false (`none`) when the cursor points at no record. -/
def Cursor.nextRecord (c : Cursor) : Option Record × Cursor :=
  if c.is_valid then (c.get, c.next.2) else (none, c)

/-- Largest timestamp of the data page with a given id (its header field). -/
def pageMaxTs (pages : List Page) (id : Nat) : Nat :=
  match readPage pages id with
  | some (.data p) => p.max_ts
  | _ => 0

/-- Binary search: the least index in `[lo, hi)` whose key is at least
`target`, or `hi` when there is none; `fuel` bounds the number of halvings. -/
def lowerBound (key : Nat → Nat) (target : Nat) : Nat → Nat → Nat → Nat
  | 0, lo, _ => lo
  | fuel + 1, lo, hi =>
    if lo < hi then
      let mid := (lo + hi) / 2
      if key mid < target then lowerBound key target fuel (mid + 1) hi
      else lowerBound key target fuel lo mid
    else lo

/-- Position of the first record with timestamp at least `ts` in a decoded
page (linear scan), or the page length. -/
def scanPage (ts : Nat) : List Record → Nat
  | [] => 0
  | r :: rest => if ts ≤ r.ts then 0 else scanPage ts rest + 1

/-- Modelled from the spec: `seekTo(ts)` "position at the least record whose
timestamp ≥ ts.  If ts exceeds the series' max timestamp, cursor becomes
invalid"; "seek uses the per-page min/max to binary-search the page list, then
performs a linear scan within the selected page" (§4.7). -/
def Cursor.seekTo (c : Cursor) (ts : Nat) : Cursor :=
  if c.last_ts < ts then c.invalidate
  else
    let n := c.page_list.length
    let k := lowerBound (fun i => pageMaxTs c.store (c.page_list.getD i 0)) ts n 0 n
    if n ≤ k then c.invalidate
    else
      let c1 := c.loadPage k
      let j := scanPage ts c1.page
      if j < c1.page.length then { c1 with rec_pos := j } else c1.invalidate

/-- Modelled from the spec: `getCursor(series_id, type_hint)`: "cursor
positioned at the first record" (§6), opened "against the current committed
index snapshot" (§2); an unknown id is `UnknownSeries`, a type that is not the
series' type is `TypeMismatch` (§7).  The cursor reads the committed pages
only, as §9 decides ("cursors see only committed state"); scenario S1 of §8
and `smoketest.cc` lines 34 to 45 and 137 to 148 expect a cursor to yield the
records inserted since the last commit as well. -/
def getCursor (db : Database) (sid : Nat) (ty : PageType) : Except Error Cursor :=
  match findSeries db.index.series sid with
  | none => .error .UnknownSeries
  | some e =>
    if e.type ≠ ty then .error .TypeMismatch
    else
      let c : Cursor :=
        { type := ty, store := db.file.pages, page_list := e.pages, last_ts := e.last_ts,
          page_pos := 0, page := [], rec_pos := 0, is_valid := false }
      .ok (c.loadPage 0)

/-- The records `n` successive `next(&ts, &value)` calls hand out, stopping at
the first call that returns false, and the cursor afterwards. -/
def Cursor.take : Nat → Cursor → List Record × Cursor
  | 0, c => ([], c)
  | n + 1, c =>
    match c.nextRecord with
    | (some r, c1) => ((r :: (Cursor.take n c1).1), (Cursor.take n c1).2)
    | (none, c1) => ([], c1)

/-! ## Traces of API calls and the sequences they describe -/

/-- A call of the mutating API; `reopen` closes the database and opens its file
again. -/
inductive Op where
  | createSeries (sid : Nat) (ty : PageType) (metadata : List Nat)
  | insert (ty : PageType) (sid ts v : Nat)
  | commit
  | reopen
  deriving DecidableEq, Repr

/-- One call on a database: its outcome and the database afterwards. -/
def step (db : Database) : Op → Status × Database
  | .createSeries sid ty metadata => createSeries db sid ty metadata
  | .insert ty sid ts v => insert db ty sid ts v
  | .commit => commit db
  | .reopen =>
    match openDatabase (closeDatabase db) with
    | .ok db1 => (.ok, db1)
    | .error e => (.error e, db)

/-- The database after a sequence of calls. -/
def run : Database → List Op → Database
  | db, [] => db
  | db, op :: ops => run (step db op).2 ops

/-- Insert a sequence of `(timestamp, value)` pairs with `insertUInt64`, one by
one: the outcomes and the database afterwards. -/
def insertAllUInt64 (sid : Nat) : Database → List (Nat × Nat) → List Status × Database
  | db, [] => ([], db)
  | db, tv :: rest =>
    let r := insertUInt64 db sid tv.1 tv.2
    let rs := insertAllUInt64 sid r.2 rest
    (r.1 :: rs.1, rs.2)

/-- The history of one series in the words of the specification: the records
inserted before the most recent successful commit, and the records inserted
successfully since (on the handle that is open). -/
structure History where
  committed : List Record
  pending : List Record
  deriving DecidableEq, Repr

/-- How one call changes the history of series `sid`: a successful insert into
the series is pending, a successful commit makes the pending records committed
(§4.5, §4.6), closing drops the pending ones (only `commit` is a durability
point). -/
def historyStep (sid : Nat) (db : Database) (h : History) : Op → History
  | .createSeries _ _ _ => h
  | .insert ty s ts v =>
    if s = sid ∧ (insert db ty s ts v).1 = .ok then
      { h with pending := h.pending ++ [{ ts := ts, value := v }] }
    else h
  | .commit =>
    if (commit db).1 = .ok then { committed := h.committed ++ h.pending, pending := [] } else h
  | .reopen =>
    if (step db .reopen).1 = .ok then { h with pending := [] } else h

/-- The history of series `sid` after a sequence of calls. -/
def history (sid : Nat) : Database → History → List Op → History
  | _, h, [] => h
  | db, h, op :: ops => history sid (step db op).2 (historyStep sid db h op) ops

/-- A cursor yields the sequence `l`: for every `n`, `n` successive
`next(&ts, &value)` calls hand out the first `n` records of `l` and stop where
`l` ends. -/
def Cursor.Yields (c : Cursor) (l : List Record) : Prop :=
  ∀ n, (c.take n).1 = l.take n

/-- A sequence of records in ascending (non-decreasing) timestamp order. -/
def Ascending (l : List Record) : Prop :=
  l.Pairwise fun a b => a.ts ≤ b.ts

instance (l : List Record) : Decidable (Ascending l) :=
  inferInstanceAs (Decidable (l.Pairwise fun (a b : Record) => a.ts ≤ b.ts))

/-! ## Invariants of the engine state -/

/-- The records a page in progress holds. -/
structure PageOf (ty : PageType) (p : DataPage) (recs : List Record) : Prop where
  type_eq : p.type = ty
  count_eq : p.count = recs.length
  body_eq : p.body = recs.map fun r => (r.ts - p.min_ts, r.value)
  head_eq : recs.head?.map (·.ts) = some p.min_ts
  last_eq : recs.getLast?.map (·.ts) = some p.max_ts
  sorted : Ascending recs

/-- The records of a list of data pages, in order. -/
def decodeAll (ty : PageType) : List DataPage → List Record
  | [] => []
  | p :: rest =>
    (match decodePage ty p with
     | .ok rs => rs
     | .error _ => []) ++ decodeAll ty rest

/-- The records of the stored page with a given id (none when it does not
decode). -/
def pageRecords (pages : List Page) (ty : PageType) (id : Nat) : List Record :=
  match readDataPage pages ty id with
  | .ok rs => rs
  | .error _ => []

/-- The records of a page list, page after page. -/
def seriesRecords (pages : List Page) (ty : PageType) : List Nat → List Record
  | [] => []
  | id :: rest => pageRecords pages ty id ++ seriesRecords pages ty rest

/-- A series entry whose pages are all stored, decodable and non-empty and hold
an ascending sequence (§3 invariants), and whose last timestamp is that of its
last record, or 0 as long as the series has no page. -/
structure SeriesOK (pages : List Page) (e : SeriesEntry) : Prop where
  readable : ∀ id ∈ e.pages, ∃ rs, readDataPage pages e.type id = .ok rs ∧ rs ≠ []
  sorted : Ascending (seriesRecords pages e.type e.pages)
  bounded : ∀ r ∈ seriesRecords pages e.type e.pages, r.ts ≤ e.last_ts
  fresh : e.pages = [] → e.last_ts = 0
  last_eq : ∀ r, (seriesRecords pages e.type e.pages).getLast? = some r → e.last_ts = r.ts

/-- The index entries and pages a commit works on are consistent. -/
structure StoreOK (pages : List Page) (free_list : List Nat) (series : List SeriesEntry) :
    Prop where
  free_nil : free_list = []
  find_self : ∀ e ∈ series, findSeries series e.id = some e
  series_ok : ∀ e ∈ series, SeriesOK pages e

/-- The invariant of every database the API produces. -/
structure WF (db : Database) : Prop where
  magic_ok : db.file.superblock.magic = superblockMagic
  version_ok : db.file.superblock.version = 1
  store_ok : StoreOK db.file.pages db.index.free_list db.index.series
  buf_nodup : (db.buffers.map Prod.fst).Nodup
  buf_ok : ∀ b ∈ db.buffers, ∃ e, findSeries db.index.series b.1 = some e ∧
    Ascending b.2 ∧ ∀ r ∈ b.2, e.last_ts ≤ r.ts
  active_newer :
    (db.active = 0 ∧ db.file.superblock.gen1 ≤ db.file.superblock.gen0) ∨
    (db.active = 1 ∧ db.file.superblock.gen0 < db.file.superblock.gen1)
  on_disk : ∃ r,
    loadRoot db.file.pages
      (if db.active = 0 then db.file.superblock.root0 else db.file.superblock.root1)
      (if db.active = 0 then db.file.superblock.gen0 else db.file.superblock.gen1) = some r ∧
    r.generation = db.index.generation ∧ r.free_list = [] ∧
    r.series <+: db.index.series ∧
    ∀ e ∈ db.index.series, e ∈ r.series ∨ e.pages = []

/-- The records a cursor still has to hand out: the rest of its decoded page
and the pages after it. -/
def Cursor.remaining (c : Cursor) : List Record :=
  if c.is_valid then
    c.page.drop c.rec_pos ++ seriesRecords c.store c.type (c.page_list.drop (c.page_pos + 1))
  else []

/-- All records of the snapshot a cursor reads. -/
def Cursor.allRecords (c : Cursor) : List Record :=
  seriesRecords c.store c.type c.page_list

/-- A cursor over readable pages whose position, when valid, is a record of the
page it has decoded. -/
structure CursorOK (c : Cursor) : Prop where
  readable : ∀ id ∈ c.page_list, ∃ rs, readDataPage c.store c.type id = .ok rs ∧ rs ≠ []
  pos : c.is_valid = true → c.rec_pos < c.page.length ∧
    ∃ id, c.page_list[c.page_pos]? = some id ∧ c.page = pageRecords c.store c.type id

/-- A call on a cursor. -/
inductive CursorOp where
  | next
  | nextRecord
  | seekTo (ts : Nat)
  deriving DecidableEq, Repr

/-- The cursor after one call. -/
def Cursor.apply (c : Cursor) : CursorOp → Cursor
  | .next => c.next.2
  | .nextRecord => c.nextRecord.2
  | .seekTo ts => c.seekTo ts

/-- The cursor after a sequence of calls. -/
def Cursor.applyAll : Cursor → List CursorOp → Cursor
  | c, [] => c
  | c, op :: ops => Cursor.applyAll (c.apply op) ops

/-- The state of a database agrees with the history of series `sid`: the stored
records of the series are the committed ones (none while the series is
unknown), its write buffer holds the pending ones. -/
structure Linked (sid : Nat) (db : Database) (h : History) : Prop where
  committed : ∀ e, findSeries db.index.series sid = some e →
    seriesRecords db.file.pages e.type e.pages = h.committed
  unknown : findSeries db.index.series sid = none → h.committed = []
  pending : bufferOf db.buffers sid = h.pending

/-- The cursor `getCursor` returns, or an invalid cursor over nothing when it
fails. -/
def cursorOf (db : Database) (sid : Nat) (ty : PageType) : Cursor :=
  match getCursor db sid ty with
  | .ok c => c
  | .error _ =>
    { type := ty, store := [], page_list := [], last_ts := 0, page_pos := 0, page := [],
      rec_pos := 0, is_valid := false }

end tsdb

/-! # The metric layer: `src/metricd/metric.cc` -/

namespace fnordmetric

/-- The metric kinds; `metric.h` is missing, the kinds are the ones
`getMetricDataType` enumerates (`metric.cc` lines 422 to 447). -/
inductive MetricKind where
  | UNKNOWN
  | SAMPLE_UINT64
  | SAMPLE_INT64
  | SAMPLE_FLOAT64
  | COUNTER_UINT64
  | COUNTER_INT64
  | COUNTER_FLOAT64
  | MONOTONIC_UINT64
  | MONOTONIC_INT64
  | MONOTONIC_FLOAT64
  | MIN_UINT64
  | MIN_INT64
  | MIN_FLOAT64
  | MAX_UINT64
  | MAX_INT64
  | MAX_FLOAT64
  | AVERAGE_UINT64
  | AVERAGE_INT64
  | AVERAGE_FLOAT64
  deriving DecidableEq, Repr

/-- The value types `getMetricDataType` returns (`tval_type`). -/
inductive tval_type where
  | UINT64
  | INT64
  | FLOAT64
  deriving DecidableEq, Repr

/-- `MetricConfig` with the fields its constructor initialises (`metric.cc`
lines 20 to 24). -/
structure MetricConfig where
  kind : MetricKind
  granularity : Nat
  display_granularity : Nat
  is_valid : Bool
  deriving DecidableEq, Repr

/-- `MetricConfig::MetricConfig()`. -/
def MetricConfig.init : MetricConfig :=
  { kind := MetricKind.UNKNOWN, granularity := 0, display_granularity := 0, is_valid := false }

/-- `getMetricDataType` (`metric.cc` lines 422 to 447). -/
def getMetricDataType : MetricKind → tval_type
  | .SAMPLE_UINT64 => .UINT64
  | .SAMPLE_INT64 => .INT64
  | .SAMPLE_FLOAT64 => .FLOAT64
  | .COUNTER_UINT64 => .UINT64
  | .COUNTER_INT64 => .INT64
  | .COUNTER_FLOAT64 => .FLOAT64
  | .MONOTONIC_UINT64 => .UINT64
  | .MONOTONIC_INT64 => .INT64
  | .MONOTONIC_FLOAT64 => .FLOAT64
  | .MIN_UINT64 => .UINT64
  | .MIN_INT64 => .INT64
  | .MIN_FLOAT64 => .FLOAT64
  | .MAX_UINT64 => .UINT64
  | .MAX_INT64 => .INT64
  | .MAX_FLOAT64 => .FLOAT64
  | .AVERAGE_UINT64 => .UINT64
  | .AVERAGE_INT64 => .INT64
  | .AVERAGE_FLOAT64 => .FLOAT64
  | .UNKNOWN => .UINT64

/-- `SeriesIDType`: a series id (`series_id.id` is the `uint64_t`). -/
structure SeriesIDType where
  id : Nat
  deriving DecidableEq, Repr

/-- `SeriesNameType`: a series name (`series_name.name` is the byte string). -/
structure SeriesNameType where
  name : List Nat
  deriving DecidableEq, Repr

/-- `MetricSeries` (`metric.cc` lines 26 to 38).  A `shared_ptr<MetricSeries>`
is modelled by the value it points to. -/
structure MetricSeries where
  series_id_ : SeriesIDType
  series_name_ : SeriesNameType
  deriving DecidableEq, Repr

/-- `MetricSeries::getSeriesID`. -/
def MetricSeries.getSeriesID (s : MetricSeries) : SeriesIDType := s.series_id_

/-- `MetricSeries::getSeriesName`. -/
def MetricSeries.getSeriesName (s : MetricSeries) : SeriesNameType := s.series_name_

/-- A `std::ostream`: the bytes written so far and the fail bit.  A write on a
failed stream writes nothing. -/
structure OStream where
  bytes : List Nat
  failbit : Bool
  deriving DecidableEq, Repr

/-- A fresh `std::ostringstream`. -/
def OStream.empty : OStream := { bytes := [], failbit := false }

/-- `os->write(data, size)`. -/
def OStream.write (os : OStream) (data : List Nat) : OStream :=
  if os.failbit then os else { os with bytes := os.bytes ++ data }

/-- Modelled from the spec: the varint bytes of a value (§4.1): "7-bit
little-endian groups with the high bit set on all but the last byte";
`libtsdb/varint.cc` is missing.  The fuel is the number of bytes left. -/
def varUIntBytes : Nat → Nat → List Nat
  | 0, _ => []
  | fuel + 1, v =>
    if v < 128 then [v] else (v % 128 + 128) :: varUIntBytes fuel (v / 128)

/-- Modelled from the spec: `tsdb::writeVarUInt(os, value)` for a `uint64_t`
value (at most 10 bytes, §4.1); true when the stream has not failed. -/
def writeVarUInt (os : OStream) (value : Nat) : Bool × OStream :=
  let os1 := os.write (varUIntBytes 10 (value % 2 ^ 64))
  (!os1.failbit, os1)

/-- `MetricSeriesMetadata`: the metric id and the series name. -/
structure MetricSeriesMetadata where
  metric_id : List Nat
  series_name : SeriesNameType
  deriving DecidableEq, Repr

/-- `MetricSeriesMetadata::encode` (`metric.cc` lines 40 to 60). -/
def MetricSeriesMetadata.encode (m : MetricSeriesMetadata) (os : OStream) : Bool × OStream :=
  let r1 := writeVarUInt os m.metric_id.length
  if !r1.1 then (false, r1.2)
  else
    let os2 := r1.2.write m.metric_id
    if os2.failbit then (false, os2)
    else
      let r3 := writeVarUInt os2 m.series_name.name.length
      if !r3.1 then (false, r3.2)
      else
        let os4 := r3.2.write m.series_name.name
        if os4.failbit then (false, os4) else (true, os4)

/-- `ReturnCode` (`util/return_code.h` is missing): success, or an error with a
code and a message. -/
structure ReturnCode where
  is_success : Bool
  code : String
  message : String
  deriving DecidableEq, Repr

/-- `ReturnCode::success()`. -/
def ReturnCode.success : ReturnCode := { is_success := true, code := "", message := "" }

/-- `ReturnCode::error(code, message)`. -/
def ReturnCode.error (code message : String) : ReturnCode :=
  { is_success := false, code := code, message := message }

/-- `find` on a C++ map, modelled as a list of key-value pairs with unique
keys, kept in the order of insertion; where the code iterates over a map
(`listSeries`), the keys are put in order there. -/
def mapFind {κ α : Type} [DecidableEq κ] : List (κ × α) → κ → Option α
  | [], _ => none
  | kv :: rest, k => if kv.1 = k then some kv.2 else mapFind rest k

/-- `emplace` on a C++ map: the pair is inserted only when the key is not
present. -/
def mapEmplace {κ α : Type} [DecidableEq κ] (m : List (κ × α)) (k : κ) (v : α) :
    List (κ × α) :=
  match mapFind m k with
  | some _ => m
  | none => m ++ [(k, v)]

/-- `MetricSeriesList`: the series by name (`series_`) and by id
(`series_by_id_`).  The mutex is not modelled. -/
structure MetricSeriesList where
  series_ : List (List Nat × MetricSeries)
  series_by_id_ : List (Nat × MetricSeries)
  deriving DecidableEq, Repr

/-- `MetricSeriesList::MetricSeriesList()`. -/
def MetricSeriesList.init : MetricSeriesList := { series_ := [], series_by_id_ := [] }

/-- `MetricSeriesList::findSeries(const SeriesIDType&, shared_ptr*)` (`metric.cc`
lines 90 to 102): the result and the output parameter afterwards. -/
def MetricSeriesList.findSeries (l : MetricSeriesList) (series_id : SeriesIDType)
    (series : Option MetricSeries) : Bool × Option MetricSeries :=
  match mapFind l.series_by_id_ series_id.id with
  | none => (false, series)
  | some s => (true, some s)

/-- `MetricSeriesList::findSeries(const SeriesNameType&, shared_ptr*)`
(`metric.cc` lines 104 to 116). -/
def MetricSeriesList.findSeriesByName (l : MetricSeriesList) (series_name : SeriesNameType)
    (series : Option MetricSeries) : Bool × Option MetricSeries :=
  match mapFind l.series_ series_name.name with
  | none => (false, series)
  | some s => (true, some s)

/-- A call to a collaborator of `metric.cc` whose code is elsewhere. -/
inductive Call where
  | allocateSeriesID
  | createSeries (series_id value_len : Nat) (metadata : List Nat)
  deriving DecidableEq, Repr

/-- The collaborators of `findOrCreateSeries`, as parameters: `tsdb::TSDB`'s
`createSeries` on a database state `σ`, `SeriesIDProvider::allocateSeriesID` on
a provider state `π`, and `tval_len`. -/
structure Collaborators (σ π : Type) where
  createSeries : σ → Nat → Nat → List Nat → Bool × σ
  allocateSeriesID : π → SeriesIDType × π
  tval_len : tval_type → Nat

/-- The state outside the series list: the database, the id provider and the
log of the collaborator calls made so far. -/
structure World (σ π : Type) where
  tsdb : σ
  series_id_provider : π
  calls : List Call

/-- What `findOrCreateSeries` leaves behind: the return code, the world, the
series list and the output parameter `*series`. -/
structure FindOrCreateResult (σ π : Type) where
  rc : ReturnCode
  world : World σ π
  list : MetricSeriesList
  series : Option MetricSeries

/-- `MetricSeriesList::findOrCreateSeries` (`metric.cc` lines 118 to 165). -/
def MetricSeriesList.findOrCreateSeries {σ π : Type} (env : Collaborators σ π)
    (w : World σ π) (l : MetricSeriesList) (metric_id : List Nat) (config : MetricConfig)
    (series_name : SeriesNameType) (series : Option MetricSeries) :
    FindOrCreateResult σ π :=
  match mapFind l.series_ series_name.name with
  | some s => { rc := ReturnCode.success, world := w, list := l, series := some s }
  | none =>
    let a := env.allocateSeriesID w.series_id_provider
    let new_series_id := a.1
    let new_series : MetricSeries :=
      { series_id_ := new_series_id, series_name_ := series_name }
    let metadata : MetricSeriesMetadata :=
      { metric_id := metric_id, series_name := series_name }
    let metadata_buf := (metadata.encode OStream.empty).2
    let value_len := env.tval_len (getMetricDataType config.kind)
    let cr := env.createSeries w.tsdb new_series_id.id value_len metadata_buf.bytes
    let w1 : World σ π :=
      { tsdb := cr.2, series_id_provider := a.2,
        calls := w.calls ++ [Call.allocateSeriesID,
          Call.createSeries new_series_id.id value_len metadata_buf.bytes] }
    if !cr.1 then
      { rc := ReturnCode.error "ERUNTIME" "can\x27t create series", world := w1, list := l,
        series := series }
    else
      { rc := ReturnCode.success, world := w1,
        list := { series_ := mapEmplace l.series_ series_name.name new_series,
                  series_by_id_ := mapEmplace l.series_by_id_ new_series_id.id new_series },
        series := some new_series }

/-- The series `findOrCreateSeries` makes for a name that is not in the list:
the id the provider allocates, and the name. -/
def newSeries {σ π : Type} (env : Collaborators σ π) (w : World σ π)
    (series_name : SeriesNameType) : MetricSeries :=
  { series_id_ := (env.allocateSeriesID w.series_id_provider).1, series_name_ := series_name }

/-- What tsdb `createSeries` answers to the call `findOrCreateSeries` makes for
a name that is not in the list. -/
def createAnswer {σ π : Type} (env : Collaborators σ π) (w : World σ π)
    (metric_id : List Nat) (config : MetricConfig) (series_name : SeriesNameType) : Bool :=
  (env.createSeries w.tsdb (env.allocateSeriesID w.series_id_provider).1.id
    (env.tval_len (getMetricDataType config.kind))
    ((MetricSeriesMetadata.encode
      { metric_id := metric_id, series_name := series_name } OStream.empty).2).bytes).1

/-- `MetricSeriesList::addSeries` (`metric.cc` lines 167 to 179); `none` when
the assertion `series_.count(series_name.name) == 0` fails. -/
def MetricSeriesList.addSeries (l : MetricSeriesList) (series_id : SeriesIDType)
    (series_name : SeriesNameType) : Option MetricSeriesList :=
  match mapFind l.series_ series_name.name with
  | some _ => none
  | none =>
    let series : MetricSeries := { series_id_ := series_id, series_name_ := series_name }
    some { series_ := mapEmplace l.series_ series_name.name series,
           series_by_id_ := mapEmplace l.series_by_id_ series_id.id series }

/-- `MetricSeriesList::listSeries` (`metric.cc` lines 181 to 187): the ids of
`series_by_id_` are appended to the vector.  `series_by_id_` is a map keyed by
the id, and the loop visits it in ascending key order, whatever the order in
which the series were added. -/
def MetricSeriesList.listSeries (l : MetricSeriesList) (series_ids : List SeriesIDType) :
    List SeriesIDType :=
  series_ids ++
    ((l.series_by_id_.map Prod.fst).insertionSort (· ≤ ·)).map fun id => SeriesIDType.mk id

/-- `MetricSeriesList::getSize` (`metric.cc` lines 189 to 192). -/
def MetricSeriesList.getSize (l : MetricSeriesList) : Nat := l.series_.length

/-- An input aggregator (`aggregate.h` is missing): which class was constructed
and with which granularity. -/
inductive InputAggregator where
  | MaxInputAggregator (granularity : Nat)
  | SumInputAggregator (granularity : Nat)
  deriving DecidableEq, Repr

/-- An output aggregator (`aggregate.h` is missing): which class was
constructed and with which cursor, data type and granularity. -/
inductive OutputAggregator (κ : Type) where
  | MaxOutputAggregator (cursor : κ) (type : tval_type) (granularity : Nat)
  | SumOutputAggregator (cursor : κ) (type : tval_type) (granularity : Nat)
  deriving DecidableEq, Repr

/-- `mkInputAggregator` (`metric.cc` lines 250 to 269). -/
def mkInputAggregator (config : MetricConfig) : Option InputAggregator :=
  if config.granularity = 0 then none
  else
    match config.kind with
    | .MAX_UINT64 | .MAX_INT64 | .MAX_FLOAT64 =>
      some (InputAggregator.MaxInputAggregator config.granularity)
    | .COUNTER_UINT64 | .COUNTER_INT64 | .COUNTER_FLOAT64 =>
      some (InputAggregator.SumInputAggregator config.granularity)
    | _ => none

/-- `mkOutputAggregator` (`metric.cc` lines 271 to 302). -/
def mkOutputAggregator {κ : Type} (cursor : κ) (config : MetricConfig) :
    Option (OutputAggregator κ) :=
  let granularity :=
    if config.display_granularity = 0 then config.granularity else config.display_granularity
  if granularity = 0 then none
  else
    match config.kind with
    | .MAX_UINT64 | .MAX_INT64 | .MAX_FLOAT64 =>
      some (OutputAggregator.MaxOutputAggregator cursor (getMetricDataType config.kind)
        granularity)
    | .COUNTER_UINT64 | .COUNTER_INT64 | .COUNTER_FLOAT64 =>
      some (OutputAggregator.SumOutputAggregator cursor (getMetricDataType config.kind)
        granularity)
    | _ => none

/-- The effective granularity in the words of the claim: the display
granularity when that is non-zero, the granularity otherwise. -/
def effectiveGranularity (config : MetricConfig) : Nat :=
  if config.display_granularity ≠ 0 then config.display_granularity else config.granularity

/-- The kinds `MAX_UINT64`, `MAX_INT64`, `MAX_FLOAT64`. -/
def MetricKind.isMax (k : MetricKind) : Bool :=
  k = .MAX_UINT64 || k = .MAX_INT64 || k = .MAX_FLOAT64

/-- The kinds `COUNTER_UINT64`, `COUNTER_INT64`, `COUNTER_FLOAT64`. -/
def MetricKind.isCounter (k : MetricKind) : Bool :=
  k = .COUNTER_UINT64 || k = .COUNTER_INT64 || k = .COUNTER_FLOAT64

/-- `Metric`: its key, configuration, series list and input aggregator. -/
structure Metric where
  key_ : String
  config_ : MetricConfig
  series_ : MetricSeriesList
  input_aggr_ : Option InputAggregator
  deriving DecidableEq, Repr

/-- `Metric::Metric(key)` (`metric.cc` lines 385 to 387). -/
def Metric.init (key : String) : Metric :=
  { key_ := key, config_ := MetricConfig.init, series_ := MetricSeriesList.init,
    input_aggr_ := none }

/-- `Metric::setConfig` (`metric.cc` lines 389 to 408); the message of the
error is the format string with `$0` replaced by the key. -/
def Metric.setConfig (m : Metric) (config : MetricConfig) : ReturnCode × Metric :=
  if config.kind = MetricKind.UNKNOWN then
    (ReturnCode.error "EARG" ("metric<" ++ m.key_ ++ ">: missing \x27kind\x27"), m)
  else
    (ReturnCode.success, { m with config_ := config, input_aggr_ := mkInputAggregator config })

/-- `Metric::getConfig`. -/
def Metric.getConfig (m : Metric) : MetricConfig := m.config_

/-- `Metric::getSeriesList`. -/
def Metric.getSeriesList (m : Metric) : MetricSeriesList := m.series_

/-- `Metric::getInputAggregator`. -/
def Metric.getInputAggregator (m : Metric) : Option InputAggregator := m.input_aggr_

/-- Two successive calls of `findOrCreateSeries` with the same name: the result
of the first and the result of the second, which starts from what the first
left behind. -/
def MetricSeriesList.findOrCreateSeriesTwice {σ π : Type} (env : Collaborators σ π)
    (w : World σ π) (l : MetricSeriesList) (metric_id : List Nat) (config : MetricConfig)
    (series_name : SeriesNameType) (series : Option MetricSeries) :
    FindOrCreateResult σ π × FindOrCreateResult σ π :=
  let r1 := l.findOrCreateSeries env w metric_id config series_name series
  (r1, r1.list.findOrCreateSeries env r1.world metric_id config series_name r1.series)

/-- Collaborators for concrete runs.  Modelled from the spec: `createSeries`
"returns false if the id exists" (§6), over the list of ids the database
knows; the id provider counts upwards; every value is 8 bytes long (§4.3). -/
def countingCollaborators : Collaborators (List Nat) Nat :=
  { createSeries := fun ids id _ _ => if id ∈ ids then (false, ids) else (true, ids ++ [id]),
    allocateSeriesID := fun n => (SeriesIDType.mk (n + 1), n + 1),
    tval_len := fun _ => 8 }

/-- The series list that holds the one series `(5, "a")`. -/
def listWithA : MetricSeriesList :=
  { series_ := [([97], MetricSeries.mk (SeriesIDType.mk 5) (SeriesNameType.mk [97]))],
    series_by_id_ := [(5, MetricSeries.mk (SeriesIDType.mk 5) (SeriesNameType.mk [97]))] }

/-! ## Decoding series metadata -/

/-- A `std::istream`: the bytes that are left and the fail bit.  No read
succeeds on a failed stream. -/
structure IStream where
  bytes : List Nat
  failbit : Bool
  deriving DecidableEq, Repr

/-- An input stream over given bytes (`std::istringstream`). -/
def IStream.ofBytes (bytes : List Nat) : IStream := { bytes := bytes, failbit := false }

/-- `is->read(buf, n)`: the bytes extracted and the stream afterwards.  When
fewer than `n` bytes are left, what is left is extracted and the stream
fails. -/
def IStream.read (is : IStream) (n : Nat) : List Nat × IStream :=
  if is.failbit then ([], is)
  else if is.bytes.length < n then (is.bytes, { bytes := [], failbit := true })
  else (is.bytes.take n, { bytes := is.bytes.drop n, failbit := false })

/-- Modelled from the spec: decoding a varint (§4.1), byte `i` carrying the
bits `7 * i` and up, the high bit saying that another byte follows;
`libtsdb/varint.cc` is missing.  "Decoding fails if the stream ends mid-value
or a value exceeds 10 bytes"; the fuel is the number of bytes still allowed.
The result is the value (in 64 bits) and the bytes that follow it. -/
def readVarUIntAux : Nat → Nat → Nat → List Nat → Option (Nat × List Nat)
  | 0, _, _, _ => none
  | _ + 1, _, _, [] => none
  | fuel + 1, i, acc, b :: rest =>
    if b < 128 then some ((acc + b % 128 * 2 ^ (7 * i)) % 2 ^ 64, rest)
    else readVarUIntAux fuel (i + 1) (acc + b % 128 * 2 ^ (7 * i)) rest

/-- Modelled from the spec: `tsdb::readVarUInt(is, &value)` (§4.1): whether a
value was read, the value, and the stream afterwards (failed when no value was
read). -/
def readVarUInt (is : IStream) : Bool × Nat × IStream :=
  if is.failbit then (false, 0, is)
  else
    match readVarUIntAux 10 0 0 is.bytes with
    | some (value, rest) => (true, value, { bytes := rest, failbit := false })
    | none => (false, 0, { bytes := [], failbit := true })

/-- `std::string::resize(n)`: cut to `n` bytes or padded with zero bytes. -/
def stringResize (s : List Nat) (n : Nat) : List Nat :=
  s.take n ++ List.replicate (n - s.length) 0

/-- `MetricSeriesMetadata::decode` (`metric.cc` lines 62 to 86): the result,
the metadata object afterwards and the stream afterwards.  A read that comes
short overwrites the front of the resized string only.  Running out of memory
in `resize` is not modelled. -/
def MetricSeriesMetadata.decode (m : MetricSeriesMetadata) (is : IStream) :
    Bool × MetricSeriesMetadata × IStream :=
  let r1 := readVarUInt is
  if !r1.1 then (false, m, r1.2.2)
  else
    let metric_id_len := r1.2.1
    let buf := stringResize m.metric_id metric_id_len
    let rd := r1.2.2.read buf.length
    let m1 : MetricSeriesMetadata := { m with metric_id := rd.1 ++ buf.drop rd.1.length }
    if rd.2.failbit then (false, m1, rd.2)
    else
      let r3 := readVarUInt rd.2
      if !r3.1 then (false, m1, r3.2.2)
      else
        let series_name_len := r3.2.1
        let nbuf := stringResize m1.series_name.name series_name_len
        let rd2 := r3.2.2.read nbuf.length
        let m2 : MetricSeriesMetadata :=
          { m1 with series_name := { name := rd2.1 ++ nbuf.drop rd2.1.length } }
        if rd2.2.failbit then (false, m2, rd2.2) else (true, m2, rd2.2)

/-! ## The cursor over the series of a metric -/

/-- `MetricSeriesListCursor` (`metric.cc` lines 304 to 383): the flag `valid_`,
the snapshot of series ids, the position of the iterator `cursor_` in the
snapshot (its length is `snapshot_.end()`), and the series found last.  The
series list it points to is passed to every call; `metric_map_` is only stored
and is left out. -/
structure MetricSeriesListCursor where
  valid_ : Bool
  snapshot_ : List SeriesIDType
  cursor_ : Nat
  series_ : Option MetricSeries
  deriving DecidableEq, Repr

/-- `MetricSeriesListCursor::MetricSeriesListCursor()` (lines 304 to 306). -/
def MetricSeriesListCursor.init : MetricSeriesListCursor :=
  { valid_ := false, snapshot_ := [], cursor_ := 0, series_ := none }

/-- `MetricSeriesListCursor::fetchNext` (`metric.cc` lines 375 to 383).  Every
unit of fuel pays for one round of the `while` loop; `none` means that the
loop has not returned when the fuel is used up.  The loop body does not move
`cursor_`. -/
def MetricSeriesListCursor.fetchNext (series_list : MetricSeriesList) :
    Nat → MetricSeriesListCursor → Option (Bool × MetricSeriesListCursor)
  | 0, _ => none
  | fuel + 1, c =>
    match c.snapshot_[c.cursor_]? with
    | none => some (false, c)
    | some id =>
      let f := series_list.findSeries id c.series_
      if f.1 then some (true, { c with series_ := f.2 })
      else MetricSeriesListCursor.fetchNext series_list fuel { c with series_ := f.2 }

/-- The constructor `MetricSeriesListCursor(metric_map, series_list, snapshot)`
(`metric.cc` lines 308 to 318); `none` when `fetchNext` has not returned
within the fuel. -/
def MetricSeriesListCursor.create (series_list : MetricSeriesList)
    (snapshot : List SeriesIDType) (fuel : Nat) : Option MetricSeriesListCursor :=
  match MetricSeriesListCursor.fetchNext series_list fuel
      { valid_ := true, snapshot_ := snapshot, cursor_ := 0, series_ := none } with
  | some r => some r.2
  | none => none

/-- `MetricSeriesListCursor::isValid` (`metric.cc` lines 362 to 364). -/
def MetricSeriesListCursor.isValid (c : MetricSeriesListCursor) : Bool :=
  c.valid_ && decide (c.cursor_ ≠ c.snapshot_.length)

/-- `MetricSeriesListCursor::next` (`metric.cc` lines 366 to 373); `none` when
`fetchNext` has not returned within the fuel. -/
def MetricSeriesListCursor.next (series_list : MetricSeriesList) (fuel : Nat)
    (c : MetricSeriesListCursor) : Option (Bool × MetricSeriesListCursor) :=
  if !c.valid_ || decide (c.cursor_ = c.snapshot_.length) then some (false, c)
  else MetricSeriesListCursor.fetchNext series_list fuel { c with cursor_ := c.cursor_ + 1 }

/-- `MetricSeriesListCursor::getSeriesID` (`metric.cc` lines 352 to 355);
`none` when the assertion fails or the iterator is at the end. -/
def MetricSeriesListCursor.getSeriesID (c : MetricSeriesListCursor) : Option SeriesIDType :=
  if c.valid_ then c.snapshot_[c.cursor_]? else none

end fnordmetric

/-! # Theorems -/

namespace tsdb

/-! ## Page codec: what is packed decodes to what was buffered -/

theorem nonDecreasing_iff (l : List Nat) :
    nonDecreasing l = true ↔ l.Pairwise (· ≤ ·) := by
  rw [← List.chain'_iff_pairwise]
  induction l with
  | nil => simp [nonDecreasing]
  | cons a t ih =>
    cases t with
    | nil => simp [nonDecreasing]
    | cons b rest =>
      simp only [nonDecreasing, Bool.and_eq_true, decide_eq_true_eq, List.chain'_cons, ih]

theorem PageOf.ne_nil {ty : PageType} {p : DataPage} {recs : List Record}
    (h : PageOf ty p recs) : recs ≠ [] := by
  intro hn
  have := h.head_eq
  simp [hn] at this

theorem PageOf.min_le {ty : PageType} {p : DataPage} {recs : List Record}
    (h : PageOf ty p recs) : ∀ r ∈ recs, p.min_ts ≤ r.ts := by
  intro r hr
  have hs := h.sorted
  have hh := h.head_eq
  cases recs with
  | nil => simp at hr
  | cons a t =>
    simp at hh
    unfold Ascending at hs
    rw [List.pairwise_cons] at hs
    rcases List.mem_cons.mp hr with rfl | hr
    · omega
    · have := hs.1 r hr
      omega

theorem PageOf.decode {ty : PageType} {p : DataPage} {recs : List Record}
    (h : PageOf ty p recs) : decodePage ty p = .ok recs := by
  have hmin := h.min_le
  have hsorted : nonDecreasing (p.body.map Prod.fst) = true := by
    rw [nonDecreasing_iff, h.body_eq, List.map_map, List.pairwise_map]
    exact h.sorted.imp (fun {a b} hab => by simp only [Function.comp]; omega)
  have hmm : minMaxConsistent p = true := by
    have hh := h.head_eq
    have hl := h.last_eq
    unfold minMaxConsistent
    rw [h.body_eq, List.head?_map, List.getLast?_map]
    cases hrh : recs.head? with
    | none => simp
    | some a =>
      cases hrl : recs.getLast? with
      | none => simp
      | some b =>
        rw [hrh] at hh
        rw [hrl] at hl
        simp at hh hl
        have hb : b ∈ recs := List.mem_of_getLast?_eq_some hrl
        have := hmin b hb
        simp
        omega
  have hbody :
      (p.body.map fun dv => ({ ts := p.min_ts + dv.1, value := dv.2 } : Record)) = recs := by
    rw [h.body_eq, List.map_map]
    conv_rhs => rw [← List.map_id recs]
    apply List.map_congr_left
    intro r hr
    have := hmin r hr
    cases r with
    | mk ts v =>
      simp only [Function.comp, id, Record.mk.injEq, and_true]
      simp only at this
      omega
  unfold decodePage
  rw [if_neg (by simp [h.type_eq]), if_neg (by simp [h.count_eq, h.body_eq]), hsorted, hmm]
  simp only [Bool.not_true, Bool.false_eq_true, if_false]
  rw [hbody]

theorem pageOf_newPage (sid : Nat) (ty : PageType) (r : Record) :
    PageOf ty (newPage sid ty r) [r] := by
  constructor <;> simp [newPage, Ascending]

theorem pageOf_append {ty : PageType} {p p1 : DataPage} {recs : List Record} {cap : Nat}
    {r : Record} (h : PageOf ty p recs) (hr : ∀ x ∈ recs, x.ts ≤ r.ts)
    (ha : appendRecord cap p r = .ok p1) : PageOf ty p1 (recs ++ [r]) := by
  unfold appendRecord at ha
  split at ha
  · cases ha
  · cases ha
    have hne := h.ne_nil
    constructor
    · exact h.type_eq
    · simp [h.count_eq]
    · simp [h.body_eq]
    · have := h.head_eq
      cases recs with
      | nil => exact absurd rfl hne
      | cons a t => simpa using this
    · simp
    · unfold Ascending
      rw [List.pairwise_append]
      refine ⟨h.sorted, by simp, ?_⟩
      intro a ha b hb
      simp at hb
      subst hb
      exact hr a ha

theorem packInto_spec (cap sid : Nat) (ty : PageType) (rs : List Record) :
    ∀ (cur : DataPage) (recs : List Record), PageOf ty cur recs →
      Ascending (recs ++ rs) →
      (∀ p ∈ packInto cap sid ty cur rs, ∃ l, decodePage ty p = .ok l ∧ l ≠ []) ∧
      decodeAll ty (packInto cap sid ty cur rs) = recs ++ rs := by
  unfold Ascending
  induction rs with
  | nil =>
    intro cur recs h _
    simp [packInto, decodeAll, h.decode, h.ne_nil]
  | cons r rest ih =>
    intro cur recs h hs
    have hs1 : ∀ x ∈ recs, x.ts ≤ r.ts := by
      intro x hx
      rw [List.pairwise_append] at hs
      exact hs.2.2 x hx r (by simp)
    unfold packInto
    cases ha : appendRecord cap cur r with
    | ok cur1 =>
      simp only
      have h1 := pageOf_append h hs1 ha
      have := ih cur1 (recs ++ [r]) h1 (by simpa using hs)
      simpa using this
    | error e =>
      simp only
      have hs2 : ([r] ++ rest).Pairwise (fun a b => a.ts ≤ b.ts) := by
        rw [List.pairwise_append] at hs
        simpa using hs.2.1
      have := ih (newPage sid ty r) [r] (pageOf_newPage sid ty r) hs2
      constructor
      · intro p hp
        rcases List.mem_cons.mp hp with rfl | hp
        · exact ⟨recs, h.decode, h.ne_nil⟩
        · exact this.1 p hp
      · simp [decodeAll, h.decode, this.2]

theorem pack_spec (cap sid : Nat) (ty : PageType) (rs : List Record) (hs : Ascending rs) :
    (∀ p ∈ pack cap sid ty rs, ∃ l, decodePage ty p = .ok l ∧ l ≠ []) ∧
    decodeAll ty (pack cap sid ty rs) = rs := by
  cases rs with
  | nil => simp [pack, decodeAll]
  | cons r rest =>
    have := packInto_spec cap sid ty rest (newPage sid ty r) [r] (pageOf_newPage sid ty r)
      (by simpa using hs)
    simpa [pack] using this

/-! ## Page store: new pages extend the file and leave the stored ones alone -/

theorem writeDataPages_nil_free (dps : List DataPage) : ∀ pages : List Page,
    writeDataPages pages [] dps =
      (List.range' pages.length dps.length, pages ++ dps.map Page.data, []) := by
  induction dps with
  | nil => intro pages; simp [writeDataPages]
  | cons dp rest ih =>
    intro pages
    have hw : writePage (pages ++ [Page.free]) pages.length (Page.data dp)
        = pages ++ [Page.data dp] := by
      simp [writePage, List.set_append]
    simp only [writeDataPages, allocatePage, hw, ih]
    simp [List.range'_succ]

theorem readDataPage_append {pages extra : List Page} {ty : PageType} {id : Nat}
    (h : id < pages.length) :
    readDataPage (pages ++ extra) ty id = readDataPage pages ty id := by
  simp [readDataPage, readPage, List.getElem?_append_left h]

theorem readDataPage_ok_lt {pages : List Page} {ty : PageType} {id : Nat} {rs : List Record}
    (h : readDataPage pages ty id = .ok rs) : id < pages.length := by
  by_contra hlt
  have : pages[id]? = none := List.getElem?_eq_none (by omega)
  simp [readDataPage, readPage, this] at h

theorem seriesRecords_append_store {pages extra : List Page} {ty : PageType} :
    ∀ ids : List Nat, (∀ id ∈ ids, id < pages.length) →
      seriesRecords (pages ++ extra) ty ids = seriesRecords pages ty ids := by
  intro ids
  induction ids with
  | nil => intro _; rfl
  | cons id rest ih =>
    intro h
    simp only [seriesRecords, pageRecords]
    rw [readDataPage_append (h id (by simp)), ih (fun x hx => h x (by simp [hx]))]

theorem seriesRecords_append (pages : List Page) (ty : PageType) (ids1 ids2 : List Nat) :
    seriesRecords pages ty (ids1 ++ ids2)
      = seriesRecords pages ty ids1 ++ seriesRecords pages ty ids2 := by
  induction ids1 with
  | nil => rfl
  | cons id rest ih => simp [seriesRecords, ih]

theorem readDataPage_new (pages : List Page) (ty : PageType) (dps : List DataPage) (i : Nat)
    (dp : DataPage) (h : dps[i]? = some dp) :
    readDataPage (pages ++ dps.map Page.data) ty (pages.length + i) = decodePage ty dp := by
  simp [readDataPage, readPage, List.getElem?_append_right, h]

theorem seriesRecords_new (ty : PageType) (dps : List DataPage) : ∀ pages : List Page,
    seriesRecords (pages ++ dps.map Page.data) ty (List.range' pages.length dps.length)
      = decodeAll ty dps := by
  induction dps with
  | nil => intro pages; simp [seriesRecords, decodeAll]
  | cons dp rest ih =>
    intro pages
    have h0 := readDataPage_new pages ty (dp :: rest) 0 dp (by simp)
    have h1 := ih (pages ++ [Page.data dp])
    simp only [List.append_assoc, List.singleton_append, List.length_append,
      List.length_singleton] at h1
    simp only [List.length_cons, List.range'_succ, seriesRecords, pageRecords, decodeAll]
    simp only [Nat.add_zero] at h0
    rw [h0]
    simp only [List.map_cons]
    rw [h1]

theorem readable_new (ty : PageType) (dps : List DataPage) (pages : List Page)
    (hd : ∀ p ∈ dps, ∃ l, decodePage ty p = .ok l ∧ l ≠ []) :
    ∀ id ∈ List.range' pages.length dps.length,
      ∃ rs, readDataPage (pages ++ dps.map Page.data) ty id = .ok rs ∧ rs ≠ [] := by
  intro id hid
  rw [List.mem_range'_1] at hid
  obtain ⟨i, rfl⟩ : ∃ i, id = pages.length + i := ⟨id - pages.length, by omega⟩
  have hi : i < dps.length := by omega
  have hget : dps[i]? = some dps[i] := List.getElem?_eq_getElem hi
  rw [readDataPage_new pages ty dps i _ hget]
  exact hd _ (List.getElem_mem hi)

/-! ## Series index lookups -/

theorem findSeries_some {l : List SeriesEntry} {sid : Nat} {e : SeriesEntry}
    (h : findSeries l sid = some e) : e ∈ l ∧ e.id = sid := by
  induction l with
  | nil => simp [findSeries] at h
  | cons x rest ih =>
    unfold findSeries at h
    split at h
    · cases h
      exact ⟨by simp, by assumption⟩
    · exact ⟨List.mem_cons_of_mem _ (ih h).1, (ih h).2⟩

theorem findSeries_none {l : List SeriesEntry} {sid : Nat}
    (h : findSeries l sid = none) : ∀ e ∈ l, e.id ≠ sid := by
  induction l with
  | nil => simp
  | cons x rest ih =>
    unfold findSeries at h
    split at h
    · cases h
    · intro e he
      rcases List.mem_cons.mp he with rfl | he
      · assumption
      · exact ih h e he

theorem findSeries_map (f : SeriesEntry → SeriesEntry) (hf : ∀ x, (f x).id = x.id)
    (l : List SeriesEntry) (sid : Nat) :
    findSeries (l.map f) sid = (findSeries l sid).map f := by
  induction l with
  | nil => rfl
  | cons x rest ih =>
    simp only [List.map_cons, findSeries, hf]
    split
    · rfl
    · exact ih

theorem findSeries_append (l : List SeriesEntry) (x : SeriesEntry) (sid : Nat) :
    findSeries (l ++ [x]) sid =
      match findSeries l sid with
      | some e => some e
      | none => if x.id = sid then some x else none := by
  induction l with
  | nil => simp [findSeries]
  | cons y rest ih =>
    simp only [List.cons_append, findSeries]
    split
    · rfl
    · exact ih

theorem findSeries_of_initial {l1 l2 : List SeriesEntry} (hp : l1 <+: l2) {sid : Nat}
    {e : SeriesEntry} (h : findSeries l1 sid = some e) : findSeries l2 sid = some e := by
  obtain ⟨t, rfl⟩ := hp
  induction l1 with
  | nil => simp [findSeries] at h
  | cons y rest ih =>
    simp only [List.cons_append, findSeries] at h ⊢
    split
    · rename_i hy
      simpa [hy] using h
    · rename_i hy
      rw [if_neg hy] at h
      exact ih h

/-! ## Frame: appending pages to the file keeps every stored series -/

theorem SeriesOK.lt {pages : List Page} {e : SeriesEntry} (h : SeriesOK pages e) :
    ∀ id ∈ e.pages, id < pages.length := by
  intro id hid
  obtain ⟨rs, hrs, _⟩ := h.readable id hid
  exact readDataPage_ok_lt hrs

theorem SeriesOK.records_append {pages : List Page} {e : SeriesEntry} (h : SeriesOK pages e)
    (extra : List Page) :
    seriesRecords (pages ++ extra) e.type e.pages = seriesRecords pages e.type e.pages :=
  seriesRecords_append_store e.pages h.lt

theorem SeriesOK.extend {pages : List Page} {e : SeriesEntry} (h : SeriesOK pages e)
    (extra : List Page) : SeriesOK (pages ++ extra) e := by
  constructor
  · intro id hid
    rw [readDataPage_append (h.lt id hid)]
    exact h.readable id hid
  · rw [h.records_append]
    exact h.sorted
  · rw [h.records_append]
    exact h.bounded
  · exact h.fresh
  · rw [h.records_append]
    exact h.last_eq

theorem pack_ne_nil (cap sid : Nat) (ty : PageType) {rs : List Record} (h : rs ≠ []) :
    pack cap sid ty rs ≠ [] := by
  have hinto : ∀ (rest : List Record) (cur : DataPage), packInto cap sid ty cur rest ≠ [] := by
    intro rest
    induction rest with
    | nil => intro cur; simp [packInto]
    | cons r t ih =>
      intro cur
      unfold packInto
      split
      · exact ih _
      · simp
  cases rs with
  | nil => exact absurd rfl h
  | cons r t => exact hinto t _

/-! ## Commit: one series -/

theorem flushSeries_nil (cap : Nat) (cs : CommitState) (sid : Nat) :
    flushSeries cap cs (sid, []) = .ok cs := by
  simp [flushSeries]

theorem ascending_last_le {l : List Record} (hs : Ascending l) {last : Record}
    (hl : l.getLast? = some last) : ∀ r ∈ l, r.ts ≤ last.ts := by
  intro r hr
  obtain ⟨init, rfl⟩ : ∃ init, l = init ++ [last] := by
    rcases List.eq_nil_or_concat l with h | ⟨init, x, h⟩
    · simp [h] at hl
    · subst h
      simp at hl
      exact ⟨init, by rw [hl]; simp⟩
  unfold Ascending at hs
  rw [List.pairwise_append] at hs
  rcases List.mem_append.mp hr with h | h
  · exact hs.2.2 r h last (by simp)
  · simp at h
    subst h
    exact Nat.le_refl _

theorem flushSeries_spec (cap : Nat) (cs : CommitState) (sid : Nat) (recs : List Record)
    (e : SeriesEntry) (hok : StoreOK cs.pages cs.free_list cs.series)
    (he : findSeries cs.series sid = some e) (hs : Ascending recs)
    (hb : ∀ r ∈ recs, e.last_ts ≤ r.ts) :
    ∃ cs1, flushSeries cap cs (sid, recs) = .ok cs1 ∧
      StoreOK cs1.pages cs1.free_list cs1.series ∧
      (∃ extra, cs1.pages = cs.pages ++ extra) ∧
      (∀ s, findSeries cs.series s = none → findSeries cs1.series s = none) ∧
      ∀ s x, findSeries cs.series s = some x →
        ∃ x1, findSeries cs1.series s = some x1 ∧ x1.id = x.id ∧ x1.type = x.type ∧
          seriesRecords cs1.pages x1.type x1.pages
            = seriesRecords cs.pages x.type x.pages ++ (if s = sid then recs else []) ∧
          (s ≠ sid → x1 = x) := by
  cases hl : recs.getLast? with
  | none =>
    have hnil : recs = [] := List.getLast?_eq_none_iff.mp hl
    subst hnil
    refine ⟨cs, flushSeries_nil cap cs sid, hok, ⟨[], by simp⟩, fun s h => h, ?_⟩
    intro s x hx
    exact ⟨x, hx, rfl, rfl, by simp, fun _ => rfl⟩
  | some last =>
    have hfree : cs.free_list = [] := hok.free_nil
    have heid : e.id = sid := (findSeries_some he).2
    have hemem : e ∈ cs.series := (findSeries_some he).1
    have heok : SeriesOK cs.pages e := hok.series_ok e hemem
    obtain ⟨hdec, hall⟩ := pack_spec cap e.id e.type recs hs
    let dps := pack cap e.id e.type recs
    let ids := List.range' cs.pages.length dps.length
    let pages1 := cs.pages ++ dps.map Page.data
    let upd : SeriesEntry → SeriesEntry := fun x =>
      if x.id = sid then { x with pages := x.pages ++ ids, last_ts := last.ts } else x
    have hupd_id : ∀ x, (upd x).id = x.id := by
      intro x
      simp only [upd]
      split <;> rfl
    have hflush : flushSeries cap cs (sid, recs)
        = .ok { pages := pages1, free_list := [], series := cs.series.map upd } := by
      simp only [flushSeries, hl, he, hfree, writeDataPages_nil_free]
    have hrec_e : seriesRecords pages1 e.type (e.pages ++ ids)
        = seriesRecords cs.pages e.type e.pages ++ recs := by
      rw [seriesRecords_append, heok.records_append, seriesRecords_new, hall]
    have hok_other : ∀ x ∈ cs.series, x.id ≠ sid → upd x = x := by
      intro x _ hx
      simp [upd, hx]
    have hupd_e : upd e = { e with pages := e.pages ++ ids, last_ts := last.ts } := by
      simp [upd, heid]
    have hself : ∀ x ∈ cs.series, x.id = sid → x = e := by
      intro x hx hxid
      have := hok.find_self x hx
      rw [hxid, he] at this
      exact (Option.some.inj this).symm
    refine ⟨_, hflush, ?_, ⟨dps.map Page.data, rfl⟩, ?_, ?_⟩
    · constructor
      · rfl
      · intro e1 he1
        obtain ⟨x, hx, rfl⟩ := List.mem_map.mp he1
        rw [findSeries_map upd hupd_id, hupd_id, hok.find_self x hx]
        rfl
      · intro e1 he1
        obtain ⟨x, hx, rfl⟩ := List.mem_map.mp he1
        by_cases hxid : x.id = sid
        · have hxe := hself x hx hxid
          subst hxe
          rw [hupd_e]
          constructor
          · intro id hid
            simp only at hid
            rcases List.mem_append.mp hid with h | h
            · show ∃ rs, readDataPage pages1 x.type id = .ok rs ∧ rs ≠ []
              rw [readDataPage_append (heok.lt id h)]
              exact heok.readable id h
            · exact readable_new x.type dps cs.pages hdec id h
          · show Ascending (seriesRecords pages1 x.type (x.pages ++ ids))
            rw [hrec_e]
            unfold Ascending
            rw [List.pairwise_append]
            refine ⟨heok.sorted, hs, ?_⟩
            intro a ha b hb1
            exact Nat.le_trans (heok.bounded a ha) (hb b hb1)
          · show ∀ r ∈ seriesRecords pages1 x.type (x.pages ++ ids), r.ts ≤ last.ts
            rw [hrec_e]
            intro r hr
            rcases List.mem_append.mp hr with h | h
            · have hlast : last ∈ recs := List.mem_of_getLast?_eq_some hl
              exact Nat.le_trans (heok.bounded r h) (hb last hlast)
            · exact ascending_last_le hs hl r h
          · intro hnil
            exfalso
            simp only [List.append_eq_nil] at hnil
            have hne : recs ≠ [] := by
              intro hr
              simp [hr] at hl
            have hp := pack_ne_nil cap x.id x.type hne
            have hlen : dps.length = 0 := by
              have := congrArg List.length hnil.2
              simpa [ids] using this
            exact hp (List.length_eq_zero.mp hlen)
          · show ∀ r, (seriesRecords pages1 x.type (x.pages ++ ids)).getLast? = some r →
              last.ts = r.ts
            rw [hrec_e]
            intro r hr
            rw [List.getLast?_append, hl] at hr
            simp only [Option.or] at hr
            injection hr with hr
            rw [hr]
        · rw [hok_other x hx hxid]
          exact (hok.series_ok x hx).extend _
    · intro s hsn
      show findSeries (cs.series.map upd) s = none
      rw [findSeries_map upd hupd_id, hsn]
      rfl
    · intro s x hx
      have hxmem := (findSeries_some hx).1
      have hxid := (findSeries_some hx).2
      refine ⟨upd x, ?_, hupd_id x, ?_, ?_, ?_⟩
      · show findSeries (cs.series.map upd) s = some (upd x)
        rw [findSeries_map upd hupd_id, hx]
        rfl
      · simp only [upd]
        split <;> rfl
      · by_cases hsid : s = sid
        · have hxe := hself x hxmem (hxid.trans hsid)
          subst hxe
          rw [hupd_e, if_pos hsid]
          exact hrec_e
        · rw [hok_other x hxmem (by rw [hxid]; exact hsid), if_neg hsid]
          simpa using (hok.series_ok x hxmem).records_append _
      · intro hsid
        exact hok_other x hxmem (by rw [hxid]; exact hsid)

/-! ## Write buffers -/

theorem bufferOf_not_mem {bs : List (Nat × List Record)} {sid : Nat}
    (h : sid ∉ bs.map Prod.fst) : bufferOf bs sid = [] := by
  induction bs with
  | nil => rfl
  | cons b rest ih =>
    simp only [List.map_cons, List.mem_cons, not_or] at h
    simp only [bufferOf]
    rw [if_neg (fun hb => h.1 hb.symm)]
    exact ih h.2

theorem bufferOf_mem {bs : List (Nat × List Record)} {sid : Nat}
    (h : bufferOf bs sid ≠ []) : (sid, bufferOf bs sid) ∈ bs := by
  induction bs with
  | nil => simp [bufferOf] at h
  | cons b rest ih =>
    simp only [bufferOf] at h ⊢
    split
    · rename_i hb
      simp [← hb]
    · rename_i hb
      rw [if_neg hb] at h
      exact List.mem_cons_of_mem _ (ih h)

theorem appendBuffer_mem {bs : List (Nat × List Record)} {sid : Nat} {r : Record} :
    ∀ b ∈ appendBuffer bs sid r, b ∈ bs ∨ b = (sid, bufferOf bs sid ++ [r]) := by
  induction bs with
  | nil =>
    intro b hb
    simp [appendBuffer] at hb
    right
    simp [hb, bufferOf]
  | cons x rest ih =>
    intro b hb
    simp only [appendBuffer] at hb
    split at hb
    · rename_i hx
      rcases List.mem_cons.mp hb with h | h
      · right
        simp [h, bufferOf, hx]
      · left
        exact List.mem_cons_of_mem _ h
    · rename_i hx
      rcases List.mem_cons.mp hb with h | h
      · left
        subst h
        simp
      · rcases ih b h with h1 | h1
        · left
          exact List.mem_cons_of_mem _ h1
        · right
          simp [h1, bufferOf, hx]

theorem appendBuffer_keys (bs : List (Nat × List Record)) (sid : Nat) (r : Record) :
    (appendBuffer bs sid r).map Prod.fst =
      if sid ∈ bs.map Prod.fst then bs.map Prod.fst else bs.map Prod.fst ++ [sid] := by
  induction bs with
  | nil => simp [appendBuffer]
  | cons x rest ih =>
    simp only [appendBuffer]
    by_cases hx : x.1 = sid
    · simp [hx]
    · rw [if_neg hx]
      simp only [List.map_cons, ih, List.mem_cons]
      have hx1 : ¬ sid = x.1 := fun h => hx h.symm
      by_cases hm : sid ∈ rest.map Prod.fst
      · simp [hm]
      · simp [hm, hx1]

theorem bufferOf_appendBuffer (bs : List (Nat × List Record)) (sid : Nat) (r : Record)
    (s : Nat) :
    bufferOf (appendBuffer bs sid r) s =
      if s = sid then bufferOf bs sid ++ [r] else bufferOf bs s := by
  induction bs with
  | nil =>
    simp only [appendBuffer, bufferOf]
    by_cases h : s = sid
    · simp [h]
    · have : ¬ sid = s := fun h1 => h h1.symm
      simp [h, this]
  | cons x rest ih =>
    simp only [appendBuffer]
    by_cases hx : x.1 = sid
    · simp only [hx, if_true, bufferOf]
      by_cases h : s = sid
      · simp [h]
      · have : ¬ sid = s := fun h1 => h h1.symm
        simp [h, this]
    · simp only [hx, if_false, bufferOf, ih]
      by_cases h : s = sid
      · subst h
        simp [hx]
      · simp [h]

/-! ## Commit: all series -/

theorem flushAll_spec (cap : Nat) (bs : List (Nat × List Record)) :
    ∀ cs : CommitState, StoreOK cs.pages cs.free_list cs.series →
      (bs.map Prod.fst).Nodup →
      (∀ b ∈ bs, ∃ e, findSeries cs.series b.1 = some e ∧ Ascending b.2 ∧
        ∀ r ∈ b.2, e.last_ts ≤ r.ts) →
      ∃ cs1, flushAll cap cs bs = .ok cs1 ∧
        StoreOK cs1.pages cs1.free_list cs1.series ∧
        (∃ extra, cs1.pages = cs.pages ++ extra) ∧
        (∀ s, findSeries cs.series s = none → findSeries cs1.series s = none) ∧
        ∀ s x, findSeries cs.series s = some x →
          ∃ x1, findSeries cs1.series s = some x1 ∧ x1.id = x.id ∧ x1.type = x.type ∧
            seriesRecords cs1.pages x1.type x1.pages
              = seriesRecords cs.pages x.type x.pages ++ bufferOf bs s := by
  induction bs with
  | nil =>
    intro cs hok _ _
    refine ⟨cs, rfl, hok, ⟨[], by simp⟩, fun s h => h, ?_⟩
    intro s x hx
    exact ⟨x, hx, rfl, rfl, by simp [bufferOf]⟩
  | cons b rest ih =>
    intro cs hok hnd hb
    simp only [List.map_cons, List.nodup_cons] at hnd
    obtain ⟨e, he, hasc, hle⟩ := hb b (by simp)
    obtain ⟨cs1, hf1, hok1, ⟨extra1, hext1⟩, hnone1, hsome1⟩ :=
      flushSeries_spec cap cs b.1 b.2 e hok he hasc hle
    have hrest : ∀ b1 ∈ rest, ∃ e1, findSeries cs1.series b1.1 = some e1 ∧ Ascending b1.2 ∧
        ∀ r ∈ b1.2, e1.last_ts ≤ r.ts := by
      intro b1 hb1
      obtain ⟨e1, he1, hasc1, hle1⟩ := hb b1 (List.mem_cons_of_mem _ hb1)
      obtain ⟨x1, hx1, _, _, _, hsame⟩ := hsome1 b1.1 e1 he1
      have hne : b1.1 ≠ b.1 := by
        intro heq
        exact hnd.1 (heq ▸ List.mem_map_of_mem Prod.fst hb1)
      rw [hsame hne] at hx1
      exact ⟨e1, hx1, hasc1, hle1⟩
    obtain ⟨cs2, hf2, hok2, ⟨extra2, hext2⟩, hnone2, hsome2⟩ := ih cs1 hok1 hnd.2 hrest
    refine ⟨cs2, ?_, hok2, ⟨extra1 ++ extra2, by rw [hext2, hext1, List.append_assoc]⟩, ?_, ?_⟩
    · have hf1b : flushSeries cap cs b = .ok cs1 := hf1
      simp only [flushAll, hf1b]
      exact hf2
    · intro s hs
      exact hnone2 s (hnone1 s hs)
    · intro s x hx
      obtain ⟨x1, hx1, hid1, hty1, hrec1, _⟩ := hsome1 s x hx
      obtain ⟨x2, hx2, hid2, hty2, hrec2⟩ := hsome2 s x1 hx1
      refine ⟨x2, hx2, hid2.trans hid1, hty2.trans hty1, ?_⟩
      rw [hrec2, hrec1]
      simp only [bufferOf]
      by_cases hs : s = b.1
      · subst hs
        rw [bufferOf_not_mem hnd.1]
        simp
      · have : ¬ b.1 = s := fun h => hs h.symm
        simp [hs, this]

/-! ## The invariant holds for every database the API produces -/

theorem loadRoot_generation {pages : List Page} {root gen : Nat} {r : IndexRoot}
    (h : loadRoot pages root gen = some r) : r.generation = gen := by
  unfold loadRoot at h
  split at h
  · split at h
    · cases h
      assumption
    · cases h
  · cases h

theorem loadRoot_append {pages : List Page} {root gen : Nat} {r : IndexRoot}
    (h : loadRoot pages root gen = some r) (extra : List Page) :
    loadRoot (pages ++ extra) root gen = some r := by
  have hlt : root < pages.length := by
    by_contra hlt
    have : pages[root]? = none := List.getElem?_eq_none (by omega)
    simp [loadRoot, readPage, this] at h
  simpa [loadRoot, readPage, List.getElem?_append_left hlt] using h

theorem wf_createDatabase (page_size_log2 : Nat) : WF (createDatabase page_size_log2) := by
  constructor
  · rfl
  · rfl
  · constructor
    · rfl
    · intro e he
      simp [createDatabase] at he
    · intro e he
      simp [createDatabase] at he
  · simp [createDatabase]
  · intro b hb
    simp [createDatabase] at hb
  · left
    simp [createDatabase]
  · refine ⟨{ generation := 1, series := [], free_list := [] }, ?_, rfl, rfl, ?_, ?_⟩
    · simp [createDatabase, loadRoot, readPage]
    · simp [createDatabase]
    · intro e he
      simp [createDatabase] at he

theorem openDatabase_of_wf {db : Database} (h : WF db) :
    ∃ r, openDatabase db.file = .ok (Database.mk db.file db.active r []) ∧
      r.generation = db.index.generation ∧ r.free_list = [] ∧
      r.series <+: db.index.series ∧ ∀ e ∈ db.index.series, e ∈ r.series ∨ e.pages = [] := by
  obtain ⟨r, hload, hgen, hfree, hpre, hun⟩ := h.on_disk
  refine ⟨r, ?_, hgen, hfree, hpre, hun⟩
  unfold openDatabase
  simp only [h.magic_ok, h.version_ok, ne_eq, not_true_eq_false, or_self, if_false]
  rcases h.active_newer with ⟨ha, hg⟩ | ⟨ha, hg⟩
  · rw [ha] at hload ⊢
    simp only [if_true] at hload
    have : ¬ db.file.superblock.gen0 < db.file.superblock.gen1 := by omega
    simp only [this, if_false, if_true, hload]
  · rw [ha] at hload ⊢
    simp only [one_ne_zero, if_false] at hload
    simp only [hg, if_true, one_ne_zero, if_false, hload]

theorem wf_createSeries {db : Database} (h : WF db) (sid : Nat) (ty : PageType)
    (metadata : List Nat) : WF (createSeries db sid ty metadata).2 := by
  unfold createSeries
  cases hf : findSeries db.index.series sid with
  | some e => exact h
  | none =>
    simp only
    constructor
    · exact h.magic_ok
    · exact h.version_ok
    · constructor
      · exact h.store_ok.free_nil
      · intro e he
        simp only at he ⊢
        rw [findSeries_append]
        rcases List.mem_append.mp he with h1 | h1
        · rw [h.store_ok.find_self e h1]
        · simp at h1
          subst h1
          simp [hf]
      · intro e he
        simp only at he ⊢
        rcases List.mem_append.mp he with h1 | h1
        · exact h.store_ok.series_ok e h1
        · simp at h1
          subst h1
          constructor
          · intro id hid
            simp at hid
          · simp [seriesRecords, Ascending]
          · simp [seriesRecords]
          · intro _
            rfl
          · intro r hr
            simp [seriesRecords] at hr
    · exact h.buf_nodup
    · intro b hb
      obtain ⟨e, he, h2⟩ := h.buf_ok b hb
      refine ⟨e, ?_, h2⟩
      simp only
      rw [findSeries_append, he]
    · exact h.active_newer
    · obtain ⟨r, hload, hgen, hfree, hpre, hun⟩ := h.on_disk
      refine ⟨r, hload, hgen, hfree, ?_, ?_⟩
      · exact hpre.trans (List.prefix_append _ _)
      · intro e he
        simp only at he
        rcases List.mem_append.mp he with h1 | h1
        · exact hun e h1
        · simp at h1
          subst h1
          right
          rfl

theorem insert_cases (db : Database) (ty : PageType) (sid ts v : Nat) :
    (insert db ty sid ts v = (.ok,
        { db with buffers := appendBuffer db.buffers sid { ts := ts, value := v } }) ∧
      ∃ e, findSeries db.index.series sid = some e ∧ e.type = ty ∧ e.last_ts ≤ ts ∧
        ∀ r, (bufferOf db.buffers sid).getLast? = some r → r.ts ≤ ts) ∨
    (∃ err, insert db ty sid ts v = (.error err, db)) := by
  unfold insert
  cases hf : findSeries db.index.series sid with
  | none => right; exact ⟨_, rfl⟩
  | some e =>
    simp only
    by_cases h1 : ts < e.last_ts
    · right
      simp [h1]
    · rw [if_neg h1]
      cases hl : (bufferOf db.buffers sid).getLast? with
      | none =>
        simp only
        by_cases h3 : e.type ≠ ty
        · right
          simp [h3]
        · left
          rw [if_neg h3]
          refine ⟨rfl, e, rfl, by simpa using h3, by omega, ?_⟩
          intro r hr
          cases hr
      | some r0 =>
        simp only
        by_cases h2 : ts < r0.ts
        · right
          simp [h2]
        · rw [if_neg h2]
          by_cases h3 : e.type ≠ ty
          · right
            simp [h3]
          · left
            rw [if_neg h3]
            refine ⟨rfl, e, rfl, by simpa using h3, by omega, ?_⟩
            intro r hr
            cases hr
            omega

theorem wf_insert {db : Database} (h : WF db) (ty : PageType) (sid ts v : Nat) :
    WF (insert db ty sid ts v).2 := by
  rcases insert_cases db ty sid ts v with ⟨heq, e, he, _, hle, hlast⟩ | ⟨err, heq⟩
  · rw [heq]
    simp only
    constructor
    · exact h.magic_ok
    · exact h.version_ok
    · exact h.store_ok
    · simp only
      rw [appendBuffer_keys]
      split
      · exact h.buf_nodup
      · rename_i hm
        rw [List.nodup_append]
        refine ⟨h.buf_nodup, by simp, ?_⟩
        intro a ha hb
        simp at hb
        subst hb
        exact hm ha
    · intro b hb
      simp only at hb ⊢
      rcases appendBuffer_mem b hb with h1 | h1
      · exact h.buf_ok b h1
      · subst h1
        refine ⟨e, he, ?_, ?_⟩
        · by_cases hne : bufferOf db.buffers sid = []
          · simp [hne, Ascending]
          · obtain ⟨e1, he1, hasc, _⟩ := h.buf_ok _ (bufferOf_mem hne)
            show Ascending (bufferOf db.buffers sid ++ [_])
            unfold Ascending
            rw [List.pairwise_append]
            refine ⟨hasc, by simp, ?_⟩
            intro a ha b hb1
            simp at hb1
            subst hb1
            obtain ⟨last, hl⟩ : ∃ last, (bufferOf db.buffers sid).getLast? = some last := by
              cases hl : (bufferOf db.buffers sid).getLast? with
              | none => exact absurd (List.getLast?_eq_none_iff.mp hl) hne
              | some last => exact ⟨last, rfl⟩
            exact Nat.le_trans (ascending_last_le hasc hl a ha) (hlast last hl)
        · intro r hr
          show e.last_ts ≤ r.ts
          rcases List.mem_append.mp hr with h1 | h1
          · have hne : bufferOf db.buffers sid ≠ [] := List.ne_nil_of_mem h1
            obtain ⟨e1, he1, _, hle1⟩ := h.buf_ok _ (bufferOf_mem hne)
            simp only at he1
            rw [he] at he1
            cases he1
            exact hle1 r h1
          · simp at h1
            subst h1
            exact hle
    · exact h.active_newer
    · exact h.on_disk
  · rw [heq]
    exact h

theorem StoreOK.extend_store {pages : List Page} {free_list : List Nat} {series : List SeriesEntry}
    (h : StoreOK pages free_list series) (extra : List Page) :
    StoreOK (pages ++ extra) free_list series :=
  ⟨h.free_nil, h.find_self, fun e he => (h.series_ok e he).extend extra⟩

theorem openDatabase_eq {db : Database} (h : WF db) {r : IndexRoot}
    (hload : loadRoot db.file.pages
      (if db.active = 0 then db.file.superblock.root0 else db.file.superblock.root1)
      (if db.active = 0 then db.file.superblock.gen0 else db.file.superblock.gen1) = some r) :
    openDatabase db.file = .ok (Database.mk db.file db.active r []) := by
  unfold openDatabase
  simp only [h.magic_ok, h.version_ok, ne_eq, not_true_eq_false, or_self, if_false]
  rcases h.active_newer with ⟨ha, hg⟩ | ⟨ha, hg⟩
  · rw [ha] at hload ⊢
    simp only [if_true] at hload
    have : ¬ db.file.superblock.gen0 < db.file.superblock.gen1 := by omega
    simp only [this, if_false, if_true, hload]
  · rw [ha] at hload ⊢
    simp only [one_ne_zero, if_false] at hload
    simp only [hg, if_true, one_ne_zero, if_false, hload]

theorem commit_spec {db : Database} (h : WF db) :
    ∃ db1, commit db = (.ok, db1) ∧ WF db1 ∧ db1.buffers = [] ∧
      (∀ s, findSeries db.index.series s = none → findSeries db1.index.series s = none) ∧
      (∀ s x, findSeries db.index.series s = some x →
        ∃ x1, findSeries db1.index.series s = some x1 ∧ x1.id = x.id ∧ x1.type = x.type ∧
          seriesRecords db1.file.pages x1.type x1.pages
            = seriesRecords db.file.pages x.type x.pages ++ bufferOf db.buffers s) ∧
      openDatabase db1.file = .ok db1 := by
  obtain ⟨cs1, hf, hok1, ⟨extra, hext⟩, hnone, hsome⟩ :=
    flushAll_spec (pageCapacity db.file.superblock.page_size_log2) db.buffers
      { pages := db.file.pages, free_list := db.index.free_list, series := db.index.series }
      h.store_ok h.buf_nodup h.buf_ok
  have hfree1 : cs1.free_list = [] := hok1.free_nil
  obtain ⟨r0, hload0, hgen0, _, _, _⟩ := h.on_disk
  have hg := loadRoot_generation hload0
  let root : IndexRoot :=
    { generation := db.index.generation + 1, series := cs1.series, free_list := [] }
  let pages1 := cs1.pages ++ [Page.index root]
  let sb1 : Superblock :=
    if db.active = 0 then
      { db.file.superblock with root1 := cs1.pages.length, gen1 := db.index.generation + 1 }
    else { db.file.superblock with root0 := cs1.pages.length, gen0 := db.index.generation + 1 }
  let db1 : Database :=
    { file := { superblock := sb1, pages := pages1 },
      active := if db.active = 0 then 1 else 0, index := root, buffers := [] }
  have hw : writePage (cs1.pages ++ [Page.free]) cs1.pages.length (Page.index root) = pages1 := by
    simp [writePage, List.set_append, pages1]
  have hcommit : commit db = (.ok, db1) := by
    simp only [commit, hf, hfree1, allocatePage]
    rw [hw]
  have hloadnew : ∀ g, g = db.index.generation + 1 →
      loadRoot pages1 cs1.pages.length g = some root := by
    intro g hg1
    simp [loadRoot, readPage, pages1, hg1, root]
  have hrec : ∀ x : SeriesEntry, x ∈ cs1.series →
      seriesRecords pages1 x.type x.pages = seriesRecords cs1.pages x.type x.pages :=
    fun x hx => (hok1.series_ok x hx).records_append _
  have hwf : WF db1 := by
    constructor
    · show sb1.magic = superblockMagic
      simp only [sb1]
      split <;> exact h.magic_ok
    · show sb1.version = 1
      simp only [sb1]
      split <;> exact h.version_ok
    · exact ⟨rfl, hok1.find_self, fun e he => (hok1.series_ok e he).extend _⟩
    · simp [db1]
    · intro b hb
      simp [db1] at hb
    · rcases h.active_newer with ⟨ha, _⟩ | ⟨ha, _⟩
      · right
        rw [ha] at hg
        simp only [if_true] at hg
        simp only [db1, sb1, ha, if_true]
        refine ⟨trivial, ?_⟩
        show db.file.superblock.gen0 < db.index.generation + 1
        omega
      · left
        rw [ha] at hg
        simp only [one_ne_zero, if_false] at hg
        simp only [db1, sb1, ha, one_ne_zero, if_false]
        refine ⟨trivial, ?_⟩
        show db.file.superblock.gen1 ≤ db.index.generation + 1
        omega
    · refine ⟨root, ?_, rfl, rfl, List.prefix_refl _, fun e he => Or.inl he⟩
      rcases h.active_newer with ⟨ha, _⟩ | ⟨ha, _⟩
      · simp only [db1, sb1, ha, if_true, one_ne_zero, if_false]
        exact hloadnew _ rfl
      · simp only [db1, sb1, ha, one_ne_zero, if_false, if_true]
        exact hloadnew _ rfl
  refine ⟨db1, hcommit, hwf, rfl, hnone, ?_, ?_⟩
  · intro s x hx
    obtain ⟨x1, hx1, hid, hty, hr⟩ := hsome s x hx
    refine ⟨x1, hx1, hid, hty, ?_⟩
    show seriesRecords pages1 x1.type x1.pages = _
    rw [hrec x1 (findSeries_some hx1).1]
    exact hr
  · have hl : loadRoot db1.file.pages
        (if db1.active = 0 then db1.file.superblock.root0 else db1.file.superblock.root1)
        (if db1.active = 0 then db1.file.superblock.gen0 else db1.file.superblock.gen1)
        = some root := by
      rcases h.active_newer with ⟨ha, _⟩ | ⟨ha, _⟩
      · simp only [db1, sb1, ha, if_true, one_ne_zero, if_false]
        exact hloadnew _ rfl
      · simp only [db1, sb1, ha, one_ne_zero, if_false, if_true]
        exact hloadnew _ rfl
    exact openDatabase_eq hwf hl

theorem findSeries_self_of_initial {l1 l2 : List SeriesEntry} (hp : l1 <+: l2)
    (hself : ∀ e ∈ l2, findSeries l2 e.id = some e) :
    ∀ e ∈ l1, findSeries l1 e.id = some e := by
  intro e he
  cases hf : findSeries l1 e.id with
  | none => exact absurd rfl (findSeries_none hf e he)
  | some e1 =>
    have h2 := findSeries_of_initial hp hf
    rw [hself e (hp.subset he)] at h2
    exact h2.symm

theorem reopen_spec {db : Database} (h : WF db) :
    ∃ db1, openDatabase (closeDatabase db) = .ok db1 ∧ WF db1 ∧
      db1.file = db.file ∧ db1.buffers = [] ∧ db1.index.series <+: db.index.series ∧
      ∀ e ∈ db.index.series, e ∈ db1.index.series ∨ e.pages = [] := by
  obtain ⟨r, hload, hgen, hfree, hpre, hun⟩ := h.on_disk
  refine ⟨Database.mk db.file db.active r [], openDatabase_eq h hload, ?_, rfl, rfl, hpre, hun⟩
  constructor
  · exact h.magic_ok
  · exact h.version_ok
  · refine ⟨hfree, findSeries_self_of_initial hpre h.store_ok.find_self, ?_⟩
    intro e he
    exact h.store_ok.series_ok e (hpre.subset he)
  · simp
  · intro b hb
    simp at hb
  · exact h.active_newer
  · exact ⟨r, hload, rfl, hfree, List.prefix_refl _, fun e he => Or.inl he⟩

theorem wf_commit {db : Database} (h : WF db) : WF (commit db).2 := by
  obtain ⟨db1, hc, hwf, _⟩ := commit_spec h
  rw [hc]
  exact hwf

theorem wf_step {db : Database} (h : WF db) (op : Op) : WF (step db op).2 := by
  cases op with
  | createSeries sid ty metadata => exact wf_createSeries h sid ty metadata
  | insert ty sid ts v => exact wf_insert h ty sid ts v
  | commit => exact wf_commit h
  | reopen =>
    obtain ⟨db1, ho, hwf, _⟩ := reopen_spec h
    simp only [step, ho]
    exact hwf

theorem wf_run (ops : List Op) : ∀ {db : Database}, WF db → WF (run db ops) := by
  induction ops with
  | nil => intro db h; exact h
  | cons op rest ih => intro db h; exact ih (wf_step h op)

/-! ## Cursors read the stored records of the series -/

theorem loadPage_spec (c : Cursor) (k : Nat)
    (hr : ∀ id ∈ c.page_list, ∃ rs, readDataPage c.store c.type id = .ok rs ∧ rs ≠ []) :
    (c.page_list.length ≤ k → (c.loadPage k).is_valid = false) ∧
    (∀ id, c.page_list[k]? = some id →
      c.loadPage k = { c with page_pos := k, page := pageRecords c.store c.type id,
                              rec_pos := 0, is_valid := true } ∧
      pageRecords c.store c.type id ≠ []) := by
  constructor
  · intro hk
    have : c.page_list[k]? = none := List.getElem?_eq_none hk
    simp [Cursor.loadPage, this]
  · intro id hid
    obtain ⟨rs, hrs, hne⟩ := hr id (List.getElem?_mem hid)
    have hne1 : rs.isEmpty = false := by
      cases rs with
      | nil => exact absurd rfl hne
      | cons a t => rfl
    simp [Cursor.loadPage, hid, hrs, pageRecords, hne1, hne]

theorem seriesRecords_drop {store : List Page} {ty : PageType} {ids : List Nat} {k id : Nat}
    (h : ids[k]? = some id) :
    seriesRecords store ty (ids.drop k)
      = pageRecords store ty id ++ seriesRecords store ty (ids.drop (k + 1)) := by
  have hk : k < ids.length := by
    by_contra hk
    have : ids[k]? = none := List.getElem?_eq_none (by omega)
    simp [this] at h
  rw [List.drop_eq_getElem_cons hk]
  have : ids[k] = id := by
    rw [List.getElem?_eq_getElem hk] at h
    exact Option.some.inj h
  rw [this]
  rfl

theorem seriesRecords_drop_ge {store : List Page} {ty : PageType} {ids : List Nat} {k : Nat}
    (h : ids.length ≤ k) : seriesRecords store ty (ids.drop k) = [] := by
  rw [List.drop_eq_nil_of_le h]
  rfl

theorem CursorOK.remaining_nil {c : Cursor} (h : CursorOK c) (hr : c.remaining = []) :
    c.is_valid = false := by
  cases hv : c.is_valid with
  | false => rfl
  | true =>
    have hp := (h.pos hv).1
    simp only [Cursor.remaining, hv, if_true, List.append_eq_nil, List.drop_eq_nil_iff] at hr
    omega

theorem loadPage_ok {c : Cursor} (h : CursorOK c) (k : Nat) :
    CursorOK (c.loadPage k) ∧
      (c.loadPage k).remaining = seriesRecords c.store c.type (c.page_list.drop k) ∧
      (c.loadPage k).store = c.store ∧ (c.loadPage k).type = c.type ∧
      (c.loadPage k).page_list = c.page_list ∧ (c.loadPage k).last_ts = c.last_ts := by
  obtain ⟨hge, hlt⟩ := loadPage_spec c k h.readable
  cases hk : c.page_list[k]? with
  | none =>
    have hlen : c.page_list.length ≤ k := by
      by_contra hlen
      rw [List.getElem?_eq_getElem (by omega)] at hk
      cases hk
    have hv := hge hlen
    have hfields : (c.loadPage k).store = c.store ∧ (c.loadPage k).type = c.type ∧
        (c.loadPage k).page_list = c.page_list ∧ (c.loadPage k).last_ts = c.last_ts := by
      simp [Cursor.loadPage, hk]
    refine ⟨⟨?_, ?_⟩, ?_, hfields⟩
    · rw [hfields.1, hfields.2.1, hfields.2.2.1]
      exact h.readable
    · intro hv1
      rw [hv] at hv1
      cases hv1
    · rw [seriesRecords_drop_ge hlen]
      simp [Cursor.remaining, hv]
  | some id =>
    obtain ⟨heq, hne⟩ := hlt id hk
    rw [heq]
    refine ⟨⟨h.readable, ?_⟩, ?_, rfl, rfl, rfl, rfl⟩
    · intro _
      exact ⟨List.length_pos.mpr hne, id, hk, rfl⟩
    · simp only [Cursor.remaining, if_true, List.drop_zero]
      rw [seriesRecords_drop hk]

theorem next_spec {c : Cursor} (h : CursorOK c) (r : Record) (rest : List Record)
    (hr : c.remaining = r :: rest) :
    c.get = some r ∧ c.next.1 = !rest.isEmpty ∧ CursorOK c.next.2 ∧
      c.next.2.remaining = rest ∧
      c.next.2.store = c.store ∧ c.next.2.type = c.type ∧
      c.next.2.page_list = c.page_list ∧ c.next.2.last_ts = c.last_ts := by
  have hv : c.is_valid = true := by
    cases hv : c.is_valid with
    | true => rfl
    | false => simp [Cursor.remaining, hv] at hr
  obtain ⟨hpos, id, hid, hpage⟩ := h.pos hv
  simp only [Cursor.remaining, hv, if_true] at hr
  rw [List.drop_eq_getElem_cons hpos] at hr
  simp only [List.cons_append, List.cons.injEq] at hr
  obtain ⟨hr1, hr2⟩ := hr
  have hget : c.get = some r := by
    simp [Cursor.get, hv, List.getElem?_eq_getElem hpos, hr1]
  refine ⟨hget, ?_⟩
  by_cases hlt : c.rec_pos + 1 < c.page.length
  · have hn : c.next = (true, { c with rec_pos := c.rec_pos + 1 }) := by
      simp [Cursor.next, hv, hlt]
    rw [hn]
    have hrem : ({ c with rec_pos := c.rec_pos + 1 } : Cursor).remaining = rest := by
      simp only [Cursor.remaining, hv, if_true]
      exact hr2
    refine ⟨?_, ⟨h.readable, ?_⟩, hrem, rfl, rfl, rfl, rfl⟩
    · have : rest ≠ [] := by
        rw [← hr2]
        intro hnil
        simp only [List.append_eq_nil, List.drop_eq_nil_iff] at hnil
        omega
      cases rest with
      | nil => exact absurd rfl this
      | cons a t => rfl
    · intro _
      exact ⟨hlt, id, hid, hpage⟩
  · have hn : c.next = ((c.loadPage (c.page_pos + 1)).is_valid, c.loadPage (c.page_pos + 1)) := by
      simp [Cursor.next, hv, hlt]
    rw [hn]
    obtain ⟨hok, hrem, hfields⟩ := loadPage_ok h (c.page_pos + 1)
    have hd : c.page.drop (c.rec_pos + 1) = [] := List.drop_eq_nil_of_le (by omega)
    rw [hd, List.nil_append] at hr2
    rw [hr2] at hrem
    refine ⟨?_, hok, hrem, hfields⟩
    simp only
    cases hv1 : (c.loadPage (c.page_pos + 1)).is_valid with
    | false =>
      simp [Cursor.remaining, hv1] at hrem
      simp [← hrem]
    | true =>
      have := (hok.pos hv1).1
      cases rest with
      | nil =>
        simp only [Cursor.remaining, hv1, if_true, List.append_eq_nil,
          List.drop_eq_nil_iff] at hrem
        omega
      | cons a t => rfl

theorem nextRecord_cons {c : Cursor} (h : CursorOK c) (r : Record) (rest : List Record)
    (hr : c.remaining = r :: rest) :
    c.nextRecord.1 = some r ∧ CursorOK c.nextRecord.2 ∧ c.nextRecord.2.remaining = rest := by
  have hv : c.is_valid = true := by
    cases hv : c.is_valid with
    | true => rfl
    | false => simp [Cursor.remaining, hv] at hr
  obtain ⟨hget, _, hok, hrem, _⟩ := next_spec h r rest hr
  simp only [Cursor.nextRecord, hv, if_true]
  exact ⟨hget, hok, hrem⟩

theorem nextRecord_nil {c : Cursor} (h : CursorOK c) (hr : c.remaining = []) :
    c.nextRecord = (none, c) := by
  simp [Cursor.nextRecord, h.remaining_nil hr]

theorem take_spec (n : Nat) : ∀ {c : Cursor}, CursorOK c →
    (c.take n).1 = c.remaining.take n := by
  induction n with
  | zero => intro c _; simp [Cursor.take]
  | succ n ih =>
    intro c h
    cases hr : c.remaining with
    | nil =>
      simp [Cursor.take, nextRecord_nil h hr]
    | cons r rest =>
      obtain ⟨h1, hok, hrem⟩ := nextRecord_cons h r rest hr
      have hpair : c.nextRecord = (some r, c.nextRecord.2) := by
        rw [← h1]
      simp only [Cursor.take]
      rw [hpair]
      simp only [List.take_succ_cons, List.cons.injEq, true_and]
      rw [ih hok, hrem]

theorem CursorOK.yields {c : Cursor} (h : CursorOK c) : c.Yields c.remaining :=
  fun n => take_spec n h

theorem getCursor_spec {db : Database} (h : WF db) {sid : Nat} {ty : PageType} {c : Cursor}
    (hc : getCursor db sid ty = .ok c) :
    ∃ e, findSeries db.index.series sid = some e ∧ e.type = ty ∧ CursorOK c ∧
      c.remaining = seriesRecords db.file.pages ty e.pages ∧
      c.store = db.file.pages ∧ c.type = ty ∧ c.page_list = e.pages ∧
      c.last_ts = e.last_ts := by
  unfold getCursor at hc
  cases hf : findSeries db.index.series sid with
  | none => simp [hf] at hc
  | some e =>
    simp only [hf] at hc
    by_cases hty : e.type ≠ ty
    · simp [hty] at hc
    · rw [if_neg hty] at hc
      have hty1 : e.type = ty := by simpa using hty
      have hsok := h.store_ok.series_ok e (findSeries_some hf).1
      let c0 : Cursor :=
        { type := ty, store := db.file.pages, page_list := e.pages, last_ts := e.last_ts,
          page_pos := 0, page := [], rec_pos := 0, is_valid := false }
      have h0 : CursorOK c0 := by
        constructor
        · intro id hid
          have := hsok.readable id hid
          rw [hty1] at this
          exact this
        · intro hv
          cases hv
      obtain ⟨hok, hrem, hfields⟩ := loadPage_ok h0 0
      have hceq : c = c0.loadPage 0 := by
        injection hc with hc
        exact hc.symm
      rw [hceq]
      exact ⟨e, rfl, hty1, hok, hrem, hfields⟩

/-! ## Seek -/

theorem lowerBound_spec (key : Nat → Nat) (p n : Nat)
    (hmono : ∀ i j, i ≤ j → j < n → key i ≤ key j) :
    ∀ fuel lo hi, hi - lo ≤ fuel → lo ≤ hi → hi ≤ n →
      lo ≤ lowerBound key p fuel lo hi ∧ lowerBound key p fuel lo hi ≤ hi ∧
      (∀ i, lo ≤ i → i < lowerBound key p fuel lo hi → key i < p) ∧
      (lowerBound key p fuel lo hi < hi → p ≤ key (lowerBound key p fuel lo hi)) := by
  intro fuel
  induction fuel with
  | zero =>
    intro lo hi h1 h2 _
    simp only [lowerBound]
    refine ⟨Nat.le_refl _, h2, ?_, ?_⟩
    · intro i hi1 hi2
      omega
    · intro h
      omega
  | succ fuel ih =>
    intro lo hi h1 h2 h3
    simp only [lowerBound]
    by_cases hlt : lo < hi
    · rw [if_pos hlt]
      have hmid1 : lo ≤ (lo + hi) / 2 := by omega
      have hmid2 : (lo + hi) / 2 < hi := by omega
      by_cases hk : key ((lo + hi) / 2) < p
      · rw [if_pos hk]
        obtain ⟨a1, a2, a3, a4⟩ := ih ((lo + hi) / 2 + 1) hi (by omega) (by omega) h3
        refine ⟨by omega, a2, ?_, a4⟩
        intro i hi1 hi2
        by_cases hle : i ≤ (lo + hi) / 2
        · exact Nat.lt_of_le_of_lt (hmono i _ hle (by omega)) hk
        · exact a3 i (by omega) hi2
      · rw [if_neg hk]
        obtain ⟨a1, a2, a3, a4⟩ := ih lo ((lo + hi) / 2) (by omega) (by omega) (by omega)
        refine ⟨a1, by omega, a3, ?_⟩
        intro _
        by_cases heq : lowerBound key p fuel lo ((lo + hi) / 2) < (lo + hi) / 2
        · exact a4 heq
        · have : lowerBound key p fuel lo ((lo + hi) / 2) = (lo + hi) / 2 := by omega
          rw [this]
          omega
    · rw [if_neg hlt]
      refine ⟨Nat.le_refl _, h2, ?_, ?_⟩
      · intro i hi1 hi2
        omega
      · intro h
        omega

theorem scanPage_drop (p : Nat) (l : List Record) :
    l.drop (scanPage p l) = l.dropWhile fun r => decide (r.ts < p) := by
  induction l with
  | nil => rfl
  | cons r rest ih =>
    simp only [scanPage]
    by_cases h : p ≤ r.ts
    · have : ¬ r.ts < p := by omega
      simp [h, List.dropWhile_cons, this]
    · have : r.ts < p := by omega
      simp [h, List.dropWhile_cons, this, ih]

theorem scanPage_le (p : Nat) (l : List Record) : scanPage p l ≤ l.length := by
  induction l with
  | nil => simp [scanPage]
  | cons r rest ih =>
    simp only [scanPage]
    split
    · omega
    · simp only [List.length_cons]
      omega

theorem dropWhile_append_all {α : Type} (q : α → Bool) (l1 l2 : List α)
    (h : ∀ x ∈ l1, q x = true) : (l1 ++ l2).dropWhile q = l2.dropWhile q := by
  induction l1 with
  | nil => rfl
  | cons a t ih =>
    simp only [List.cons_append, List.dropWhile_cons, h a (by simp), if_true]
    exact ih (fun x hx => h x (by simp [hx]))

theorem dropWhile_all {α : Type} (q : α → Bool) (l : List α)
    (h : ∀ x ∈ l, q x = true) : l.dropWhile q = [] := by
  have := dropWhile_append_all q l [] h
  simpa using this

theorem head?_dropWhile_not {α : Type} (q : α → Bool) (l : List α) :
    (l.dropWhile fun x => !q x).head? = l.find? q := by
  induction l with
  | nil => rfl
  | cons a t ih =>
    simp only [List.dropWhile_cons, List.find?_cons]
    cases q a <;> simp [ih]

theorem mem_seriesRecords {store : List Page} {ty : PageType} {ids : List Nat} {r : Record} :
    r ∈ seriesRecords store ty ids ↔ ∃ id ∈ ids, r ∈ pageRecords store ty id := by
  induction ids with
  | nil => simp [seriesRecords]
  | cons id rest ih =>
    simp only [seriesRecords, List.mem_append, ih, List.mem_cons, exists_eq_or_imp]

theorem decodePage_last {ty : PageType} {p : DataPage} {rs : List Record}
    (h : decodePage ty p = .ok rs) {last : Record} (hl : rs.getLast? = some last) :
    last.ts = p.max_ts := by
  unfold decodePage at h
  split at h
  · cases h
  · split at h
    · cases h
    · split at h
      · cases h
      · split at h
        · cases h
        · rename_i hmm
          injection h with h
          subst h
          rw [List.getLast?_map] at hl
          simp only [Bool.not_eq_true, Bool.not_eq_false_eq_eq_true] at hmm
          unfold minMaxConsistent at hmm
          cases hbl : p.body.getLast? with
          | none => simp [hbl] at hl
          | some dv =>
            rw [hbl] at hl
            cases hbh : p.body.head? with
            | none =>
              have : p.body = [] := by
                cases hb : p.body with
                | nil => rfl
                | cons a t => simp [hb] at hbh
              simp [this] at hbl
            | some dh =>
              simp only [hbl, hbh, Bool.and_eq_true, decide_eq_true_eq] at hmm
              simp only [Option.map] at hl
              injection hl with hl
              rw [← hl]
              exact hmm.2

theorem pageMaxTs_last {store : List Page} {ty : PageType} {id : Nat} {rs : List Record}
    (h : readDataPage store ty id = .ok rs) {last : Record} (hl : rs.getLast? = some last) :
    pageMaxTs store id = last.ts := by
  unfold readDataPage at h
  unfold pageMaxTs
  cases hp : readPage store id with
  | none => simp [hp] at h
  | some pg =>
    cases pg with
    | free => simp [hp] at h
    | index r => simp [hp] at h
    | data p =>
      simp only [hp] at h
      simp only
      exact (decodePage_last h hl).symm

theorem allRecords_split (c : Cursor) (k : Nat) :
    c.allRecords = seriesRecords c.store c.type (c.page_list.take k)
      ++ seriesRecords c.store c.type (c.page_list.drop k) := by
  unfold Cursor.allRecords
  rw [← seriesRecords_append, List.take_append_drop]

theorem page_facts {c : Cursor} (h : CursorOK c) (hs : Ascending c.allRecords) {i id : Nat}
    (hid : c.page_list[i]? = some id) :
    ∃ last, (pageRecords c.store c.type id).getLast? = some last ∧
      pageMaxTs c.store id = last.ts ∧
      (∀ r ∈ pageRecords c.store c.type id, r.ts ≤ last.ts) ∧
      (∀ r ∈ seriesRecords c.store c.type (c.page_list.take i), r.ts ≤ last.ts) := by
  obtain ⟨rs, hrs, hne⟩ := h.readable id (List.getElem?_mem hid)
  have hpr : pageRecords c.store c.type id = rs := by simp [pageRecords, hrs]
  obtain ⟨last, hl⟩ : ∃ last, rs.getLast? = some last := by
    cases hl : rs.getLast? with
    | none => exact absurd (List.getLast?_eq_none_iff.mp hl) hne
    | some last => exact ⟨last, rfl⟩
  have hall := allRecords_split c i
  rw [seriesRecords_drop hid, hpr] at hall
  unfold Ascending at hs
  rw [hall, List.pairwise_append, List.pairwise_append] at hs
  obtain ⟨_, ⟨hrs_sorted, _, _⟩, hcross⟩ := hs
  have hlast_mem : last ∈ rs := List.mem_of_getLast?_eq_some hl
  refine ⟨last, by rw [hpr]; exact hl, pageMaxTs_last hrs hl, ?_, ?_⟩
  · rw [hpr]
    exact ascending_last_le hrs_sorted hl
  · intro r hr
    exact hcross r hr last (List.mem_append_left _ hlast_mem)

theorem seekTo_spec {c : Cursor} (h : CursorOK c) (hs : Ascending c.allRecords)
    (hb : ∀ r ∈ c.allRecords, r.ts ≤ c.last_ts) (p : Nat) :
    CursorOK (c.seekTo p) ∧
      (c.seekTo p).remaining = c.allRecords.dropWhile (fun r => decide (r.ts < p)) ∧
      (c.seekTo p).store = c.store ∧ (c.seekTo p).type = c.type ∧
      (c.seekTo p).page_list = c.page_list ∧ (c.seekTo p).last_ts = c.last_ts := by
  have hinv : CursorOK c.invalidate ∧ c.invalidate.remaining = [] ∧
      c.invalidate.store = c.store ∧ c.invalidate.type = c.type ∧
      c.invalidate.page_list = c.page_list ∧ c.invalidate.last_ts = c.last_ts := by
    refine ⟨⟨h.readable, ?_⟩, by simp [Cursor.invalidate, Cursor.remaining], rfl, rfl, rfl, rfl⟩
    intro hv
    simp [Cursor.invalidate] at hv
  unfold Cursor.seekTo
  by_cases hlast : c.last_ts < p
  · rw [if_pos hlast]
    obtain ⟨h1, h2, h3⟩ := hinv
    refine ⟨h1, ?_, h3⟩
    rw [h2]
    symm
    apply dropWhile_all
    intro r hr
    have := hb r hr
    simp only [decide_eq_true_eq]
    omega
  · rw [if_neg hlast]
    simp only
    have hkey : ∀ i id, c.page_list[i]? = some id →
        pageMaxTs c.store (c.page_list.getD i 0) = pageMaxTs c.store id := by
      intro i id hid
      rw [List.getD_eq_getElem?_getD, hid]
      rfl
    have hmono : ∀ i j, i ≤ j → j < c.page_list.length →
        pageMaxTs c.store (c.page_list.getD i 0) ≤ pageMaxTs c.store (c.page_list.getD j 0) := by
      intro i j hij hj
      have hidj : c.page_list[j]? = some c.page_list[j] := List.getElem?_eq_getElem hj
      have hi : i < c.page_list.length := by omega
      have hidi : c.page_list[i]? = some c.page_list[i] := List.getElem?_eq_getElem hi
      rw [hkey i _ hidi, hkey j _ hidj]
      obtain ⟨lj, hlj, hmj, _, hbefore⟩ := page_facts h hs hidj
      obtain ⟨li, hli, hmi, _, _⟩ := page_facts h hs hidi
      rw [hmi, hmj]
      by_cases heq : i = j
      · subst heq
        rw [hli] at hlj
        cases hlj
        exact Nat.le_refl _
      · apply hbefore
        rw [mem_seriesRecords]
        refine ⟨c.page_list[i], ?_, List.mem_of_getLast?_eq_some hli⟩
        apply List.getElem?_mem (n := i)
        rw [List.getElem?_take_of_lt (by omega)]
        exact hidi
    obtain ⟨_, hk2, hk3, hk4⟩ :=
      lowerBound_spec (fun i => pageMaxTs c.store (c.page_list.getD i 0)) p c.page_list.length
        hmono c.page_list.length 0 c.page_list.length (by omega) (by omega) (Nat.le_refl _)
    generalize lowerBound (fun i => pageMaxTs c.store (c.page_list.getD i 0)) p
      c.page_list.length 0 c.page_list.length = k at hk2 hk3 hk4
    have hbefore : ∀ r ∈ seriesRecords c.store c.type (c.page_list.take k),
        (fun r : Record => decide (r.ts < p)) r = true := by
      intro r hr
      rw [mem_seriesRecords] at hr
      obtain ⟨id, hid, hrid⟩ := hr
      obtain ⟨i, hi⟩ := List.getElem?_of_mem hid
      have hik : i < k := by
        by_contra hik
        rw [List.getElem?_take, if_neg hik] at hi
        cases hi
      rw [List.getElem?_take_of_lt hik] at hi
      obtain ⟨last, _, hm, hle, _⟩ := page_facts h hs hi
      have h1 := hk3 i (Nat.zero_le _) hik
      rw [hkey i id hi, hm] at h1
      have h2 := hle r hrid
      simp only [decide_eq_true_eq]
      omega
    by_cases hkn : c.page_list.length ≤ k
    · rw [if_pos hkn]
      obtain ⟨h1, h2, h3⟩ := hinv
      refine ⟨h1, ?_, h3⟩
      rw [h2]
      symm
      apply dropWhile_all
      intro r hr
      apply hbefore
      rw [List.take_of_length_le hkn]
      exact hr
    · rw [if_neg hkn]
      have hklt : k < c.page_list.length := by omega
      have hidk : c.page_list[k]? = some c.page_list[k] := List.getElem?_eq_getElem hklt
      obtain ⟨last, hl, hm, hle, _⟩ := page_facts h hs hidk
      have hp_le : p ≤ last.ts := by
        have := hk4 hklt
        rw [hkey k _ hidk, hm] at this
        exact this
      obtain ⟨hload, hne⟩ := (loadPage_spec c k h.readable).2 _ hidk
      rw [hload]
      simp only
      have hall : c.allRecords.dropWhile (fun r => decide (r.ts < p))
          = (pageRecords c.store c.type c.page_list[k]).drop
              (scanPage p (pageRecords c.store c.type c.page_list[k]))
            ++ seriesRecords c.store c.type (c.page_list.drop (k + 1)) := by
        rw [allRecords_split c k, dropWhile_append_all _ _ _ hbefore, seriesRecords_drop hidk,
          scanPage_drop]
        have hlm : last ∈ pageRecords c.store c.type c.page_list[k] :=
          List.mem_of_getLast?_eq_some hl
        obtain ⟨l1, l2, hsplit⟩ := List.append_of_mem hlm
        rw [hsplit]
        have hdw : ∀ (l1 : List Record) (rest : List Record),
            (l1 ++ last :: l2 ++ rest).dropWhile (fun r => decide (r.ts < p))
              = (l1 ++ last :: l2).dropWhile (fun r => decide (r.ts < p)) ++ rest := by
          intro l1 rest
          induction l1 with
          | nil =>
            have : ¬ last.ts < p := by omega
            simp [List.dropWhile_cons, this]
          | cons a t ih =>
            simp only [List.cons_append, List.dropWhile_cons]
            split
            · exact ih
            · rfl
        exact hdw l1 _
      have hscan : scanPage p (pageRecords c.store c.type c.page_list[k])
          < (pageRecords c.store c.type c.page_list[k]).length := by
        by_contra hcon
        have hnil : (pageRecords c.store c.type c.page_list[k]).drop
            (scanPage p (pageRecords c.store c.type c.page_list[k])) = [] :=
          List.drop_eq_nil_of_le (by omega)
        rw [scanPage_drop, List.dropWhile_eq_nil_iff] at hnil
        have := hnil last (List.mem_of_getLast?_eq_some hl)
        simp only [decide_eq_true_eq] at this
        omega
      rw [if_pos hscan]
      refine ⟨⟨h.readable, ?_⟩, ?_, rfl, rfl, rfl, rfl⟩
      · intro _
        exact ⟨hscan, _, hidk, rfl⟩
      · rw [hall]
        simp [Cursor.remaining]

/-! ## The engine state follows the history of a series -/

theorem bufferOf_unknown {db : Database} (h : WF db) {sid : Nat}
    (hf : findSeries db.index.series sid = none) : bufferOf db.buffers sid = [] := by
  by_contra hne
  obtain ⟨e, he, _⟩ := h.buf_ok _ (bufferOf_mem hne)
  simp only at he
  rw [hf] at he
  cases he

theorem linked_createDatabase (sid page_size_log2 : Nat) :
    Linked sid (createDatabase page_size_log2) { committed := [], pending := [] } := by
  constructor
  · intro e he
    simp [createDatabase, findSeries] at he
  · intro _
    rfl
  · rfl

theorem linked_step {sid : Nat} {db : Database} {h : History} (hwf : WF db)
    (hl : Linked sid db h) (op : Op) :
    Linked sid (step db op).2 (historyStep sid db h op) := by
  cases op with
  | createSeries s ty metadata =>
    simp only [step, historyStep, createSeries]
    cases hf : findSeries db.index.series s with
    | some e => exact hl
    | none =>
      simp only
      constructor
      · intro e he
        simp only at he ⊢
        rw [findSeries_append] at he
        cases hf1 : findSeries db.index.series sid with
        | some e1 =>
          rw [hf1] at he
          simp only at he
          cases he
          exact hl.committed _ hf1
        | none =>
          rw [hf1] at he
          simp only at he
          split at he
          · cases he
            simp only [seriesRecords]
            exact (hl.unknown hf1).symm
          · cases he
      · intro he
        simp only at he
        rw [findSeries_append] at he
        cases hf1 : findSeries db.index.series sid with
        | some e1 =>
          rw [hf1] at he
          cases he
        | none => exact hl.unknown hf1
      · exact hl.pending
  | insert ty s ts v =>
    simp only [step, historyStep]
    rcases insert_cases db ty s ts v with ⟨heq, _⟩ | ⟨err, heq⟩
    · rw [heq]
      simp only [and_true]
      constructor
      · intro e he
        split <;> exact hl.committed e he
      · intro he
        split <;> exact hl.unknown he
      · simp only
        rw [bufferOf_appendBuffer]
        by_cases hs : s = sid
        · subst hs
          simp [hl.pending]
        · have : ¬ sid = s := fun h1 => hs h1.symm
          simp [hs, this, hl.pending]
    · rw [heq]
      simp only [reduceCtorEq, and_false, if_false]
      exact hl
  | commit =>
    simp only [step, historyStep]
    obtain ⟨db1, hc, hwf1, hbuf, hnone, hsome, _⟩ := commit_spec hwf
    rw [hc]
    simp only [if_true]
    constructor
    · intro e1 he1
      simp only
      cases hf : findSeries db.index.series sid with
      | none =>
        rw [hnone sid hf] at he1
        cases he1
      | some e =>
        obtain ⟨x1, hx1, _, _, hrec⟩ := hsome sid e hf
        rw [he1] at hx1
        cases hx1
        rw [hrec, hl.committed e hf, hl.pending]
    · intro he1
      simp only
      cases hf : findSeries db.index.series sid with
      | none =>
        rw [hl.unknown hf, ← hl.pending, bufferOf_unknown hwf hf]
        rfl
      | some e =>
        obtain ⟨x1, hx1, _⟩ := hsome sid e hf
        rw [he1] at hx1
        cases hx1
    · simp [hbuf, bufferOf]
  | reopen =>
    obtain ⟨db1, ho, hwf1, hfile, hbuf, hpre, hun⟩ := reopen_spec hwf
    simp only [step, historyStep, ho, if_true]
    constructor
    · intro e he
      simp only
      rw [hfile]
      exact hl.committed e (findSeries_of_initial hpre he)
    · intro he
      simp only
      cases hf : findSeries db.index.series sid with
      | none => exact hl.unknown hf
      | some e =>
        have hmem := (findSeries_some hf).1
        have hid := (findSeries_some hf).2
        rcases hun e hmem with h1 | h1
        · exact absurd hid (findSeries_none he e h1)
        · rw [← hl.committed e hf, h1]
          rfl
    · simp [hbuf, bufferOf]

theorem linked_run {sid : Nat} (ops : List Op) : ∀ {db : Database} {h : History},
    WF db → Linked sid db h → Linked sid (run db ops) (history sid db h ops) := by
  induction ops with
  | nil => intro db h _ hl; exact hl
  | cons op rest ih =>
    intro db h hwf hl
    exact ih (wf_step hwf op) (linked_step hwf hl op)

theorem wf_reachable (page_size_log2 : Nat) (ops : List Op) :
    WF (run (createDatabase page_size_log2) ops) :=
  wf_run ops (wf_createDatabase page_size_log2)

theorem linked_reachable (sid page_size_log2 : Nat) (ops : List Op) :
    Linked sid (run (createDatabase page_size_log2) ops)
      (history sid (createDatabase page_size_log2) { committed := [], pending := [] } ops) :=
  linked_run ops (wf_createDatabase page_size_log2) (linked_createDatabase sid page_size_log2)

/-- A cursor of a consistent database hands out the committed history. -/
theorem getCursor_linked {db : Database} (hwf : WF db) {sid : Nat} {h : History}
    (hl : Linked sid db h) {ty : PageType} {c : Cursor} (hc : getCursor db sid ty = .ok c) :
    CursorOK c ∧ c.remaining = h.committed ∧ c.allRecords = h.committed ∧
      Ascending h.committed ∧ (∀ r ∈ h.committed, r.ts ≤ c.last_ts) ∧
      ∃ e, findSeries db.index.series sid = some e ∧ e.type = ty ∧ c.last_ts = e.last_ts := by
  obtain ⟨e, he, hty, hok, hrem, hstore, hcty, hpl, hlast⟩ := getCursor_spec hwf hc
  have hsok := hwf.store_ok.series_ok e (findSeries_some he).1
  have hcom := hl.committed e he
  rw [hty] at hcom
  have hall : c.allRecords = h.committed := by
    unfold Cursor.allRecords
    rw [hstore, hcty, hpl]
    exact hcom
  refine ⟨hok, by rw [hrem]; exact hcom, hall, ?_, ?_, e, he, hty, hlast⟩
  · rw [← hcom, ← hty]
    exact hsok.sorted
  · intro r hr
    rw [hlast]
    rw [← hcom, ← hty] at hr
    exact hsok.bounded r hr

/-! ## Cursor calls keep the snapshot -/

theorem CursorOK.get_eq {c : Cursor} (h : CursorOK c) : c.get = c.remaining.head? := by
  cases hr : c.remaining with
  | nil => simp [Cursor.get, h.remaining_nil hr]
  | cons r rest => simp [(next_spec h r rest hr).1]

theorem CursorOK.valid_iff {c : Cursor} (h : CursorOK c) :
    c.valid = true ↔ c.remaining ≠ [] := by
  constructor
  · intro hv hr
    have := h.remaining_nil hr
    simp only [Cursor.valid] at hv
    rw [this] at hv
    cases hv
  · intro hr
    cases hv : c.is_valid with
    | true => exact hv
    | false => simp [Cursor.remaining, hv] at hr

theorem apply_ok {c : Cursor} (h : CursorOK c) (hs : Ascending c.allRecords)
    (hb : ∀ r ∈ c.allRecords, r.ts ≤ c.last_ts) (op : CursorOp) :
    CursorOK (c.apply op) ∧ (c.apply op).allRecords = c.allRecords ∧
      (c.apply op).last_ts = c.last_ts := by
  have hnext : CursorOK c.next.2 ∧ c.next.2.allRecords = c.allRecords ∧
      c.next.2.last_ts = c.last_ts := by
    cases hr : c.remaining with
    | nil =>
      have : c.next = (false, c) := by simp [Cursor.next, h.remaining_nil hr]
      rw [this]
      exact ⟨h, rfl, rfl⟩
    | cons r rest =>
      obtain ⟨_, _, hok, _, h1, h2, h3, h4⟩ := next_spec h r rest hr
      refine ⟨hok, ?_, h4⟩
      unfold Cursor.allRecords
      rw [h1, h2, h3]
  cases op with
  | next => exact hnext
  | nextRecord =>
    simp only [Cursor.apply, Cursor.nextRecord]
    split
    · exact hnext
    · exact ⟨h, rfl, rfl⟩
  | seekTo ts =>
    obtain ⟨hok, _, h1, h2, h3, h4⟩ := seekTo_spec h hs hb ts
    refine ⟨hok, ?_, h4⟩
    simp only [Cursor.apply]
    unfold Cursor.allRecords
    rw [h1, h2, h3]

theorem applyAll_ok (ops : List CursorOp) : ∀ {c : Cursor}, CursorOK c →
    Ascending c.allRecords → (∀ r ∈ c.allRecords, r.ts ≤ c.last_ts) →
    CursorOK (c.applyAll ops) ∧ (c.applyAll ops).allRecords = c.allRecords ∧
      (c.applyAll ops).last_ts = c.last_ts := by
  induction ops with
  | nil => intro c h _ _; exact ⟨h, rfl, rfl⟩
  | cons op rest ih =>
    intro c h hs hb
    obtain ⟨h1, h2, h3⟩ := apply_ok h hs hb op
    obtain ⟨h4, h5, h6⟩ := ih h1 (by rw [h2]; exact hs) (by rw [h2, h3]; exact hb)
    exact ⟨h4, by rw [← h2]; exact h5, by rw [← h3]; exact h6⟩

theorem find?_eq_head?_dropWhile (p : Nat) (l : List Record) :
    l.find? (fun r => decide (p ≤ r.ts)) = (l.dropWhile fun r => decide (r.ts < p)).head? := by
  induction l with
  | nil => rfl
  | cons a t ih =>
    simp only [List.find?_cons, List.dropWhile_cons]
    by_cases h : p ≤ a.ts
    · have : ¬ a.ts < p := by omega
      simp [h, this]
    · have : a.ts < p := by omega
      simp [h, this, ih]

/-! ## Inserting a sequence -/

theorem insert_ok {db : Database} {ty : PageType} {sid ts v : Nat} {e : SeriesEntry}
    (he : findSeries db.index.series sid = some e) (hty : e.type = ty)
    (hle : e.last_ts ≤ ts)
    (hbuf : ∀ r, (bufferOf db.buffers sid).getLast? = some r → r.ts ≤ ts) :
    insert db ty sid ts v = (.ok,
      { db with buffers := appendBuffer db.buffers sid { ts := ts, value := v } }) := by
  unfold insert
  rw [he]
  simp only
  rw [if_neg (by omega)]
  cases hl : (bufferOf db.buffers sid).getLast? with
  | none => simp [hty]
  | some r =>
    have := hbuf r hl
    simp only
    rw [if_neg (by omega)]
    simp [hty]

theorem getCursor_ok {db : Database} {sid : Nat} {ty : PageType} {e : SeriesEntry}
    (he : findSeries db.index.series sid = some e) (hty : e.type = ty) :
    ∃ c, getCursor db sid ty = .ok c := by
  unfold getCursor
  rw [he]
  simp [hty]

theorem insertAll_spec (sid : Nat) (pairs : List (Nat × Nat)) :
    ∀ {db : Database} {h : History} {e : SeriesEntry}, WF db → Linked sid db h →
      findSeries db.index.series sid = some e → e.type = PageType.UINT64 →
      Ascending (h.pending ++ pairs.map fun tv => { ts := tv.1, value := tv.2 }) →
      (∀ tv ∈ pairs, e.last_ts ≤ tv.1) →
      (insertAllUInt64 sid db pairs).1 = List.replicate pairs.length Status.ok ∧
      WF (insertAllUInt64 sid db pairs).2 ∧
      Linked sid (insertAllUInt64 sid db pairs).2
        { committed := h.committed,
          pending := h.pending ++ pairs.map fun tv => { ts := tv.1, value := tv.2 } } ∧
      findSeries (insertAllUInt64 sid db pairs).2.index.series sid = some e := by
  induction pairs with
  | nil =>
    intro db h e hwf hl he _ _ _
    refine ⟨rfl, hwf, ?_, he⟩
    simpa [insertAllUInt64] using hl
  | cons tv rest ih =>
    intro db h e hwf hl he hty hasc hle
    have hbuf : ∀ r, (bufferOf db.buffers sid).getLast? = some r → r.ts ≤ tv.1 := by
      intro r hr
      rw [hl.pending] at hr
      have hmem := List.mem_of_getLast?_eq_some hr
      unfold Ascending at hasc
      rw [List.pairwise_append] at hasc
      exact hasc.2.2 r hmem { ts := tv.1, value := tv.2 } (by simp)
    have hins := insert_ok (v := tv.2) he hty (hle tv (by simp)) hbuf
    have hstep : step db (Op.insert PageType.UINT64 sid tv.1 tv.2)
        = insert db PageType.UINT64 sid tv.1 tv.2 := rfl
    have hwf1 := wf_step hwf (Op.insert PageType.UINT64 sid tv.1 tv.2)
    have hl1 := linked_step hwf hl (Op.insert PageType.UINT64 sid tv.1 tv.2)
    rw [hstep] at hwf1 hl1
    simp only [historyStep, hins, and_self, if_true] at hl1
    rw [hins] at hwf1
    obtain ⟨a1, a2, a3, a4⟩ := ih hwf1 hl1 he hty
      (by simpa using hasc) (fun x hx => hle x (by simp [hx]))
    simp only [insertAllUInt64, insertUInt64, hins]
    refine ⟨by simp [a1, List.replicate_succ], a2, ?_, a4⟩
    simpa using a3

/-! ## The claims about the engine -/

theorem pages_nil_of_records_nil {pages : List Page} {e : SeriesEntry} (h : SeriesOK pages e)
    (hr : seriesRecords pages e.type e.pages = []) : e.pages = [] := by
  cases hp : e.pages with
  | nil => rfl
  | cons id rest =>
    obtain ⟨rs, hrs, hne⟩ := h.readable id (by simp [hp])
    rw [hp] at hr
    simp [seriesRecords, pageRecords, hrs, hne] at hr

/-- C1 (round trip).  In every database the API can produce, for every series
of type UINT64 and every sequence of `(timestamp, value)` pairs whose
timestamps are non-decreasing and not below those of the records the series
holds already: every `insertUInt64` returns true, `commit` returns true, and a
cursor freshly obtained with `getCursor` yields the records the series held
before followed by exactly those pairs, in insertion order, each
`next(&ts, &value)` returning true until the sequence ends.  For a series that
held no record the cursor yields exactly those pairs. -/
theorem round_trip_uint64 (page_size_log2 : Nat) (ops : List Op) (sid : Nat) (e : SeriesEntry)
    (pairs : List (Nat × Nat))
    (hseries : findSeries (run (createDatabase page_size_log2) ops).index.series sid = some e)
    (htype : e.type = PageType.UINT64)
    (hsorted : Ascending
      ((history sid (createDatabase page_size_log2) { committed := [], pending := [] }
          ops).committed
        ++ (history sid (createDatabase page_size_log2) { committed := [], pending := [] }
          ops).pending
        ++ pairs.map fun tv => { ts := tv.1, value := tv.2 })) :
    (insertAllUInt64 sid (run (createDatabase page_size_log2) ops) pairs).1
        = List.replicate pairs.length Status.ok ∧
      (commit (insertAllUInt64 sid (run (createDatabase page_size_log2) ops) pairs).2).1
        = Status.ok ∧
      ∃ c, getCursor
          (commit (insertAllUInt64 sid (run (createDatabase page_size_log2) ops) pairs).2).2
          sid PageType.UINT64 = .ok c ∧
        c.Yields
          ((history sid (createDatabase page_size_log2) { committed := [], pending := [] }
              ops).committed
            ++ (history sid (createDatabase page_size_log2) { committed := [], pending := [] }
              ops).pending
            ++ pairs.map fun tv => { ts := tv.1, value := tv.2 }) := by
  have hwf := wf_reachable page_size_log2 ops
  have hl := linked_reachable sid page_size_log2 ops
  generalize history sid (createDatabase page_size_log2)
    { committed := [], pending := [] } ops = H at hl hsorted ⊢
  have hsok := hwf.store_ok.series_ok e (findSeries_some hseries).1
  have hcom := hl.committed e hseries
  unfold Ascending at hsorted
  rw [List.append_assoc, List.pairwise_append] at hsorted
  obtain ⟨_, hrest, hcross⟩ := hsorted
  have hle : ∀ tv ∈ pairs, e.last_ts ≤ tv.1 := by
    intro tv htv
    cases hlast : H.committed.getLast? with
    | none =>
      have hnil : H.committed = [] := List.getLast?_eq_none_iff.mp hlast
      rw [hnil] at hcom
      rw [hsok.fresh (pages_nil_of_records_nil hsok hcom)]
      exact Nat.zero_le _
    | some r0 =>
      have h1 := hsok.last_eq r0 (by rw [hcom]; exact hlast)
      have h2 := hcross r0 (List.mem_of_getLast?_eq_some hlast)
        { ts := tv.1, value := tv.2 }
        (List.mem_append_right _ (List.mem_map_of_mem _ htv))
      rw [h1]
      exact h2
  obtain ⟨h1, hwf2, hl2, he2⟩ := insertAll_spec sid pairs hwf hl hseries htype hrest hle
  obtain ⟨db3, hc, hwf3, _, _, hsome, _⟩ := commit_spec hwf2
  have hl3 := linked_step hwf2 hl2 Op.commit
  simp only [step, historyStep, hc, if_true] at hl3
  obtain ⟨x1, hx1, _, hx1ty, _⟩ := hsome sid e he2
  obtain ⟨c, hcur⟩ := getCursor_ok hx1 (hx1ty.trans htype)
  refine ⟨h1, by rw [hc], c, by rw [hc]; exact hcur, ?_⟩
  obtain ⟨hok, hrem, _⟩ := getCursor_linked hwf3 hl3 hcur
  have := hok.yields
  rw [hrem] at this
  simpa [List.append_assoc] using this

/-- Witness for C1: a fresh series in a database with one record per page, three
pairs of which two share a timestamp; four `next(&ts, &value)` calls hand out
exactly the three pairs. -/
theorem round_trip_uint64_witness :
    ((cursorOf
        (commit (insertAllUInt64 1 (run (createDatabase 6) [Op.createSeries 1 PageType.UINT64 []])
          [(2, 1), (4, 2), (4, 3)]).2).2 1 PageType.UINT64).take 4).1
      = [{ ts := 2, value := 1 }, { ts := 4, value := 2 }, { ts := 4, value := 3 }] := by
  obtain ⟨_, _, c, hc, hy⟩ := round_trip_uint64 6 [Op.createSeries 1 PageType.UINT64 []] 1
    { id := 1, type := PageType.UINT64, metadata := [], last_ts := 0, pages := [] }
    [(2, 1), (4, 2), (4, 3)] (by decide) rfl (by decide)
  have hcur : cursorOf
      (commit (insertAllUInt64 1 (run (createDatabase 6) [Op.createSeries 1 PageType.UINT64 []])
        [(2, 1), (4, 2), (4, 3)]).2).2 1 PageType.UINT64 = c := by
    simp only [cursorOf, hc]
  rw [hcur, hy 4]
  decide

/-- C2 (seek correctness).  For every series of every database the API can
produce (its committed timestamps are then in non-decreasing order), every
cursor on it in whatever position earlier calls left it, and every probe `p`:
after `seekTo(p)`, `get` returns the first committed record whose timestamp is
at least `p` (and nothing when there is none), the cursor is valid exactly when
such a record exists, and it is invalid exactly when `p` is greater than every
timestamp of the series. -/
theorem seek_correct (page_size_log2 : Nat) (ops : List Op) (sid : Nat) (ty : PageType)
    (c : Cursor) (calls : List CursorOp) (p : Nat)
    (hc : getCursor (run (createDatabase page_size_log2) ops) sid ty = .ok c) :
    Ascending (history sid (createDatabase page_size_log2)
        { committed := [], pending := [] } ops).committed ∧
      ((c.applyAll calls).seekTo p).get
        = (history sid (createDatabase page_size_log2)
            { committed := [], pending := [] } ops).committed.find?
            (fun r => decide (p ≤ r.ts)) ∧
      (((c.applyAll calls).seekTo p).valid = true ↔
        ∃ r ∈ (history sid (createDatabase page_size_log2)
          { committed := [], pending := [] } ops).committed, p ≤ r.ts) ∧
      (((c.applyAll calls).seekTo p).valid = false ↔
        ∀ r ∈ (history sid (createDatabase page_size_log2)
          { committed := [], pending := [] } ops).committed, r.ts < p) := by
  have hwf := wf_reachable page_size_log2 ops
  have hl := linked_reachable sid page_size_log2 ops
  obtain ⟨hok, _, hall, hasc, hb, _⟩ := getCursor_linked hwf hl hc
  generalize (history sid (createDatabase page_size_log2)
    { committed := [], pending := [] } ops).committed = all at hall hasc hb ⊢
  obtain ⟨hok1, hall1, hlast1⟩ :=
    applyAll_ok calls hok (by rw [hall]; exact hasc) (by rw [hall]; exact hb)
  obtain ⟨hok2, hrem2, _⟩ := seekTo_spec hok1
    (by rw [hall1, hall]; exact hasc) (by rw [hall1, hall, hlast1]; exact hb) p
  rw [hall1, hall] at hrem2
  have hvalid : ((c.applyAll calls).seekTo p).valid = true ↔ ∃ r ∈ all, p ≤ r.ts := by
    rw [hok2.valid_iff, hrem2, Ne, List.dropWhile_eq_nil_iff]
    constructor
    · intro h
      by_contra hcon
      apply h
      intro x hx
      simp only [decide_eq_true_eq]
      by_contra hge
      exact hcon ⟨x, hx, by omega⟩
    · rintro ⟨r, hr, hp⟩ h
      have := h r hr
      simp only [decide_eq_true_eq] at this
      omega
  refine ⟨hasc, ?_, hvalid, ?_⟩
  · rw [hok2.get_eq, hrem2, find?_eq_head?_dropWhile]
  · constructor
    · intro hv r hr
      by_contra hge
      have : ((c.applyAll calls).seekTo p).valid = true := hvalid.mpr ⟨r, hr, by omega⟩
      rw [hv] at this
      cases this
    · intro h
      cases hv : ((c.applyAll calls).seekTo p).valid with
      | false => rfl
      | true =>
        obtain ⟨r, hr, hp⟩ := hvalid.mp hv
        have := h r hr
        omega

/-- Witness for C2: the records `(2, 1), (4, 2), (6, 3)` on three pages; after
one `next()`, `seekTo(3)` is at `(4, 2)`, and `seekTo(7)` invalidates. -/
theorem seek_correct_witness :
    ((((cursorOf (run (createDatabase 6) [Op.createSeries 1 PageType.UINT64 [],
          Op.insert PageType.UINT64 1 2 1, Op.insert PageType.UINT64 1 4 2,
          Op.insert PageType.UINT64 1 6 3, Op.commit]) 1 PageType.UINT64).applyAll
          [CursorOp.next]).seekTo 3).get = some { ts := 4, value := 2 }) ∧
      ((((cursorOf (run (createDatabase 6) [Op.createSeries 1 PageType.UINT64 [],
          Op.insert PageType.UINT64 1 2 1, Op.insert PageType.UINT64 1 4 2,
          Op.insert PageType.UINT64 1 6 3, Op.commit]) 1 PageType.UINT64).applyAll
          [CursorOp.next]).seekTo 7).valid = false) := by
  constructor
  · have h := (seek_correct 6 [Op.createSeries 1 PageType.UINT64 [],
      Op.insert PageType.UINT64 1 2 1, Op.insert PageType.UINT64 1 4 2,
      Op.insert PageType.UINT64 1 6 3, Op.commit] 1 PageType.UINT64
      (cursorOf (run (createDatabase 6) [Op.createSeries 1 PageType.UINT64 [],
        Op.insert PageType.UINT64 1 2 1, Op.insert PageType.UINT64 1 4 2,
        Op.insert PageType.UINT64 1 6 3, Op.commit]) 1 PageType.UINT64)
      [CursorOp.next] 3 rfl).2.1
    rw [h]
    decide
  · apply (seek_correct 6 [Op.createSeries 1 PageType.UINT64 [],
      Op.insert PageType.UINT64 1 2 1, Op.insert PageType.UINT64 1 4 2,
      Op.insert PageType.UINT64 1 6 3, Op.commit] 1 PageType.UINT64
      (cursorOf (run (createDatabase 6) [Op.createSeries 1 PageType.UINT64 [],
        Op.insert PageType.UINT64 1 2 1, Op.insert PageType.UINT64 1 4 2,
        Op.insert PageType.UINT64 1 6 3, Op.commit]) 1 PageType.UINT64)
      [CursorOp.next] 7 rfl).2.2.2.mpr
    decide

/-- C6 (durability across reopen).  For every database the API can produce,
closing it and opening the same file succeeds, and for every series a cursor
opened before the close yields the committed records, and `getCursor` on the
reopened database returns that same cursor, hence the same full sequence in the
same order; the one exception is a series created after the last commit, which
has no committed record and is unknown after the reopen. -/
theorem durable_across_reopen (page_size_log2 : Nat) (ops : List Op) :
    ∃ db1, openDatabase (closeDatabase (run (createDatabase page_size_log2) ops)) = .ok db1 ∧
      ∀ sid ty c, getCursor (run (createDatabase page_size_log2) ops) sid ty = .ok c →
        c.Yields (history sid (createDatabase page_size_log2)
          { committed := [], pending := [] } ops).committed ∧
        (getCursor db1 sid ty = .ok c ∨
          ((history sid (createDatabase page_size_log2)
              { committed := [], pending := [] } ops).committed = [] ∧
            getCursor db1 sid ty = .error Error.UnknownSeries)) := by
  have hwf := wf_reachable page_size_log2 ops
  obtain ⟨db1, ho, _, hfile, _, hpre, hun⟩ := reopen_spec hwf
  refine ⟨db1, ho, ?_⟩
  intro sid ty c hc
  have hl := linked_reachable sid page_size_log2 ops
  obtain ⟨hok, hrem, _, _, _, e, he, hty, _⟩ := getCursor_linked hwf hl hc
  refine ⟨by have := hok.yields; rw [hrem] at this; exact this, ?_⟩
  cases hf1 : findSeries db1.index.series sid with
  | some e1 =>
    left
    have := findSeries_of_initial hpre hf1
    rw [he] at this
    cases this
    unfold getCursor at hc ⊢
    rw [he] at hc
    rw [hf1, hfile]
    exact hc
  | none =>
    right
    constructor
    · rcases hun e (findSeries_some he).1 with h1 | h1
      · exact absurd (findSeries_some he).2 (findSeries_none hf1 e h1)
      · rw [← hl.committed e he, h1]
        rfl
    · simp [getCursor, hf1]

/-- Witness for C6: two records committed on separate pages and a third one
pending; the file opens again and `getCursor` returns the cursor it returned
before the close. -/
theorem durable_across_reopen_witness :
    ∃ db1, openDatabase (closeDatabase (run (createDatabase 6)
        [Op.createSeries 1 PageType.UINT64 [], Op.insert PageType.UINT64 1 2 1,
         Op.insert PageType.UINT64 1 4 2, Op.commit, Op.insert PageType.UINT64 1 6 3]))
        = .ok db1 ∧
      getCursor db1 1 PageType.UINT64
        = getCursor (run (createDatabase 6)
            [Op.createSeries 1 PageType.UINT64 [], Op.insert PageType.UINT64 1 2 1,
             Op.insert PageType.UINT64 1 4 2, Op.commit, Op.insert PageType.UINT64 1 6 3])
            1 PageType.UINT64 := by
  obtain ⟨db1, ho, h⟩ := durable_across_reopen 6
    [Op.createSeries 1 PageType.UINT64 [], Op.insert PageType.UINT64 1 2 1,
     Op.insert PageType.UINT64 1 4 2, Op.commit, Op.insert PageType.UINT64 1 6 3]
  refine ⟨db1, ho, ?_⟩
  have hc : getCursor (run (createDatabase 6)
      [Op.createSeries 1 PageType.UINT64 [], Op.insert PageType.UINT64 1 2 1,
       Op.insert PageType.UINT64 1 4 2, Op.commit, Op.insert PageType.UINT64 1 6 3])
      1 PageType.UINT64
      = .ok (cursorOf (run (createDatabase 6)
        [Op.createSeries 1 PageType.UINT64 [], Op.insert PageType.UINT64 1 2 1,
         Op.insert PageType.UINT64 1 4 2, Op.commit, Op.insert PageType.UINT64 1 6 3])
        1 PageType.UINT64) := rfl
  rcases (h 1 PageType.UINT64 _ hc).2 with h1 | ⟨h2, _⟩
  · rw [h1, hc]
  · exact absurd h2 (by decide)

end tsdb

namespace fnordmetric

/-! ## Maps -/

theorem mapFind_append {κ α : Type} [DecidableEq κ] (m : List (κ × α)) (k : κ) (v : α)
    (k1 : κ) :
    mapFind (m ++ [(k, v)]) k1 =
      match mapFind m k1 with
      | some x => some x
      | none => if k = k1 then some v else none := by
  induction m with
  | nil => simp [mapFind]
  | cons kv rest ih =>
    simp only [List.cons_append, mapFind]
    split
    · rfl
    · exact ih

theorem mapFind_emplace_self {κ α : Type} [DecidableEq κ] (m : List (κ × α)) (k : κ) (v : α)
    (h : mapFind m k = none) : mapFind (mapEmplace m k v) k = some v := by
  simp [mapEmplace, h, mapFind_append]

theorem mapEmplace_length {κ α : Type} [DecidableEq κ] (m : List (κ × α)) (k : κ) (v : α)
    (h : mapFind m k = none) : (mapEmplace m k v).length = m.length + 1 := by
  simp [mapEmplace, h]

/-! ## `findOrCreateSeries` -/

theorem findOrCreateSeries_found {σ π : Type} (env : Collaborators σ π) (w : World σ π)
    (l : MetricSeriesList) (metric_id : List Nat) (config : MetricConfig)
    (series_name : SeriesNameType) (series : Option MetricSeries) (s : MetricSeries)
    (h : mapFind l.series_ series_name.name = some s) :
    l.findOrCreateSeries env w metric_id config series_name series
      = { rc := ReturnCode.success, world := w, list := l, series := some s } := by
  simp [MetricSeriesList.findOrCreateSeries, h]

theorem findOrCreateSeries_created {σ π : Type} (env : Collaborators σ π) (w : World σ π)
    (l : MetricSeriesList) (metric_id : List Nat) (config : MetricConfig)
    (series_name : SeriesNameType) (series : Option MetricSeries)
    (h : mapFind l.series_ series_name.name = none)
    (hc : createAnswer env w metric_id config series_name = true) :
    (l.findOrCreateSeries env w metric_id config series_name series).rc = ReturnCode.success ∧
    (l.findOrCreateSeries env w metric_id config series_name series).series
      = some (newSeries env w series_name) ∧
    (l.findOrCreateSeries env w metric_id config series_name series).list
      = { series_ := mapEmplace l.series_ series_name.name
            { series_id_ := (env.allocateSeriesID w.series_id_provider).1,
              series_name_ := series_name },
          series_by_id_ := mapEmplace l.series_by_id_
            (env.allocateSeriesID w.series_id_provider).1.id
            { series_id_ := (env.allocateSeriesID w.series_id_provider).1,
              series_name_ := series_name } } := by
  unfold createAnswer at hc
  simp [MetricSeriesList.findOrCreateSeries, h, hc, newSeries]

theorem findOrCreateSeries_failed {σ π : Type} (env : Collaborators σ π) (w : World σ π)
    (l : MetricSeriesList) (metric_id : List Nat) (config : MetricConfig)
    (series_name : SeriesNameType) (series : Option MetricSeries)
    (h : mapFind l.series_ series_name.name = none)
    (hc : createAnswer env w metric_id config series_name = false) :
    (l.findOrCreateSeries env w metric_id config series_name series).rc
        = ReturnCode.error "ERUNTIME" "can\x27t create series" ∧
      (l.findOrCreateSeries env w metric_id config series_name series).series = series ∧
      (l.findOrCreateSeries env w metric_id config series_name series).list = l := by
  unfold createAnswer at hc
  simp [MetricSeriesList.findOrCreateSeries, h, hc, newSeries]

/-! ## The claims about the metric layer -/

/-- C7 as stated fails in two corners.  With the list that holds the series
`(5, "a")` (as `addSeries` makes it), a provider that allocates 5 and a database
that accepts it, `findOrCreateSeries` for `"b"` succeeds with the new series
`(5, "b")`, yet `findSeries` by id 5 still returns `(5, "a")`.  And two
successive successful calls for `"a"`, which the list holds already, leave
`getSize()` at 1. -/
theorem findOrCreateSeries_counterexample :
    MetricSeriesList.init.addSeries (SeriesIDType.mk 5) (SeriesNameType.mk [97])
        = some listWithA ∧
      (listWithA.findOrCreateSeries countingCollaborators
          { tsdb := [], series_id_provider := 4, calls := [] }
          [] MetricConfig.init (SeriesNameType.mk [98]) none).rc.is_success = true ∧
      (listWithA.findOrCreateSeries countingCollaborators
          { tsdb := [], series_id_provider := 4, calls := [] }
          [] MetricConfig.init (SeriesNameType.mk [98]) none).series
        = some (MetricSeries.mk (SeriesIDType.mk 5) (SeriesNameType.mk [98])) ∧
      ((listWithA.findOrCreateSeries countingCollaborators
          { tsdb := [], series_id_provider := 4, calls := [] }
          [] MetricConfig.init (SeriesNameType.mk [98]) none).list.findSeries
          (SeriesIDType.mk 5) none)
        = (true, some (MetricSeries.mk (SeriesIDType.mk 5) (SeriesNameType.mk [97]))) ∧
      listWithA.getSize = 1 ∧
      (listWithA.findOrCreateSeriesTwice countingCollaborators
          { tsdb := [5], series_id_provider := 5, calls := [] }
          [] MetricConfig.init (SeriesNameType.mk [97]) none).1.rc.is_success = true ∧
      (listWithA.findOrCreateSeriesTwice countingCollaborators
          { tsdb := [5], series_id_provider := 5, calls := [] }
          [] MetricConfig.init (SeriesNameType.mk [97]) none).2.rc.is_success = true ∧
      (listWithA.findOrCreateSeriesTwice countingCollaborators
          { tsdb := [5], series_id_provider := 5, calls := [] }
          [] MetricConfig.init (SeriesNameType.mk [97]) none).2.list.getSize = 1 := by
  decide

/-- C7 (amended).  `findOrCreateSeries` is find-or-create by series name.  If
the name is in the list it returns success with the existing series and leaves
the world (database, id provider, log of collaborator calls) and the list as
they were.  Otherwise, when tsdb `createSeries` answers true, it returns success
with the new series that carries the allocated id, `findSeries` by that name
returns this series, `findSeries` by that id returns it provided the id was not
yet used in the list, and `getSize()` has grown by one.  Two successive
successful calls with the same name return the same series, and over the pair
`getSize()` grows by one when the name was not in the list before and by zero
when it was. -/
theorem findOrCreateSeries_find_or_create {σ π : Type} (env : Collaborators σ π)
    (w : World σ π) (l : MetricSeriesList) (metric_id : List Nat) (config : MetricConfig)
    (series_name : SeriesNameType) (series : Option MetricSeries) :
    (∀ s, mapFind l.series_ series_name.name = some s →
      (l.findOrCreateSeries env w metric_id config series_name series).rc = ReturnCode.success ∧
      (l.findOrCreateSeries env w metric_id config series_name series).series = some s ∧
      (l.findOrCreateSeries env w metric_id config series_name series).list = l ∧
      (l.findOrCreateSeries env w metric_id config series_name series).world.tsdb = w.tsdb ∧
      (l.findOrCreateSeries env w metric_id config series_name series).world.series_id_provider
        = w.series_id_provider ∧
      (l.findOrCreateSeries env w metric_id config series_name series).world.calls = w.calls) ∧
    (mapFind l.series_ series_name.name = none →
      createAnswer env w metric_id config series_name = true →
      (l.findOrCreateSeries env w metric_id config series_name series).rc = ReturnCode.success ∧
      (l.findOrCreateSeries env w metric_id config series_name series).series
        = some (newSeries env w series_name) ∧
      (∀ out, (l.findOrCreateSeries env w metric_id config series_name series).list.findSeriesByName
        series_name out = (true, some (newSeries env w series_name))) ∧
      (mapFind l.series_by_id_ (newSeries env w series_name).series_id_.id = none →
        ∀ out, (l.findOrCreateSeries env w metric_id config series_name series).list.findSeries
          (newSeries env w series_name).series_id_ out
            = (true, some (newSeries env w series_name))) ∧
      (l.findOrCreateSeries env w metric_id config series_name series).list.getSize
        = l.getSize + 1) ∧
    ((l.findOrCreateSeriesTwice env w metric_id config series_name series).1.rc.is_success
        = true →
      (l.findOrCreateSeriesTwice env w metric_id config series_name series).2.rc.is_success
        = true →
      (l.findOrCreateSeriesTwice env w metric_id config series_name series).2.series
        = (l.findOrCreateSeriesTwice env w metric_id config series_name series).1.series ∧
      (l.findOrCreateSeriesTwice env w metric_id config series_name series).2.list.getSize
        = l.getSize + if (mapFind l.series_ series_name.name).isSome then 0 else 1) := by
  refine ⟨?_, ?_, ?_⟩
  · intro s hs
    rw [findOrCreateSeries_found env w l metric_id config series_name series s hs]
    exact ⟨rfl, rfl, rfl, rfl, rfl, rfl⟩
  · intro hn hc
    obtain ⟨h1, h2, h3⟩ :=
      findOrCreateSeries_created env w l metric_id config series_name series hn hc
    rw [h3]
    refine ⟨h1, h2, ?_, ?_, ?_⟩
    · intro out
      simp only [MetricSeriesList.findSeriesByName]
      rw [mapFind_emplace_self _ _ _ hn]
      rfl
    · intro hid out
      simp only [MetricSeriesList.findSeries]
      have := mapFind_emplace_self l.series_by_id_
        (env.allocateSeriesID w.series_id_provider).1.id
        (MetricSeries.mk (env.allocateSeriesID w.series_id_provider).1 series_name) hid
      simp only [newSeries]
      rw [this]
    · simp only [MetricSeriesList.getSize]
      exact mapEmplace_length _ _ _ hn
  · intro h1 h2
    simp only [MetricSeriesList.findOrCreateSeriesTwice] at h1 h2 ⊢
    cases hf : mapFind l.series_ series_name.name with
    | some s =>
      rw [findOrCreateSeries_found env w l metric_id config series_name series s hf]
      simp only
      rw [findOrCreateSeries_found env w l metric_id config series_name (some s) s hf]
      simp
    | none =>
      cases hc : createAnswer env w metric_id config series_name with
      | false =>
        obtain ⟨e1, _, _⟩ :=
          findOrCreateSeries_failed env w l metric_id config series_name series hf hc
        rw [e1] at h1
        simp [ReturnCode.error] at h1
      | true =>
        obtain ⟨_, e2, e3⟩ :=
          findOrCreateSeries_created env w l metric_id config series_name series hf hc
        have hfound : mapFind
            (l.findOrCreateSeries env w metric_id config series_name series).list.series_
            series_name.name = some (newSeries env w series_name) := by
          rw [e3]
          exact mapFind_emplace_self _ _ _ hf
        rw [findOrCreateSeries_found env _ _ metric_id config series_name _ _ hfound]
        simp only [Option.isSome_none, Bool.false_eq_true, if_false]
        refine ⟨e2.symm, ?_⟩
        rw [e3]
        simp only [MetricSeriesList.getSize]
        exact mapEmplace_length _ _ _ hf

/-- Witness for C7 (amended): the name `"b"` is new to the list that holds
`(7, "a")`, the provider allocates 5 and the database accepts it. -/
theorem findOrCreateSeries_find_or_create_witness :
    (MetricSeriesList.findOrCreateSeries countingCollaborators
        { tsdb := [7], series_id_provider := 4, calls := [] }
        { series_ := [([97], MetricSeries.mk (SeriesIDType.mk 7) (SeriesNameType.mk [97]))],
          series_by_id_ := [(7, MetricSeries.mk (SeriesIDType.mk 7) (SeriesNameType.mk [97]))] }
        [109] MetricConfig.init (SeriesNameType.mk [98]) none).list.getSize = 1 + 1 :=
  ((findOrCreateSeries_find_or_create countingCollaborators
    { tsdb := [7], series_id_provider := 4, calls := [] }
    { series_ := [([97], MetricSeries.mk (SeriesIDType.mk 7) (SeriesNameType.mk [97]))],
      series_by_id_ := [(7, MetricSeries.mk (SeriesIDType.mk 7) (SeriesNameType.mk [97]))] }
    [109] MetricConfig.init (SeriesNameType.mk [98]) none).2.1 (by decide) (by decide)).2.2.2.2

/-- C8 (atomicity of `findOrCreateSeries` on failure).  For every series list
and every name that is not in the list: if tsdb `createSeries` answers false,
`findOrCreateSeries` returns the error with code `ERUNTIME`, leaves the output
series as it was and leaves the list unchanged, so that `getSize()`,
`findSeries` for every name and every id, and `listSeries` are the same as
before the call. -/
theorem findOrCreateSeries_failure_atomic {σ π : Type} (env : Collaborators σ π)
    (w : World σ π) (l : MetricSeriesList) (metric_id : List Nat) (config : MetricConfig)
    (series_name : SeriesNameType) (series : Option MetricSeries)
    (hnew : mapFind l.series_ series_name.name = none)
    (hfail : createAnswer env w metric_id config series_name = false) :
    (l.findOrCreateSeries env w metric_id config series_name series).rc.is_success = false ∧
      (l.findOrCreateSeries env w metric_id config series_name series).rc.code = "ERUNTIME" ∧
      (l.findOrCreateSeries env w metric_id config series_name series).series = series ∧
      (l.findOrCreateSeries env w metric_id config series_name series).list = l ∧
      (l.findOrCreateSeries env w metric_id config series_name series).list.getSize
        = l.getSize ∧
      (∀ name out,
        (l.findOrCreateSeries env w metric_id config series_name series).list.findSeriesByName
          name out = l.findSeriesByName name out) ∧
      (∀ id out,
        (l.findOrCreateSeries env w metric_id config series_name series).list.findSeries
          id out = l.findSeries id out) ∧
      ∀ ids,
        (l.findOrCreateSeries env w metric_id config series_name series).list.listSeries ids
          = l.listSeries ids := by
  obtain ⟨h1, h2, h3⟩ :=
    findOrCreateSeries_failed env w l metric_id config series_name series hnew hfail
  rw [h1, h2, h3]
  exact ⟨rfl, rfl, rfl, rfl, rfl, fun _ _ => rfl, fun _ _ => rfl, fun _ => rfl⟩

/-- Witness for C8: the provider allocates the id 5, which the database knows
already. -/
theorem findOrCreateSeries_failure_atomic_witness :
    (listWithA.findOrCreateSeries countingCollaborators
        { tsdb := [5], series_id_provider := 4, calls := [] }
        [109] MetricConfig.init (SeriesNameType.mk [98]) none).list = listWithA :=
  (findOrCreateSeries_failure_atomic countingCollaborators
    { tsdb := [5], series_id_provider := 4, calls := [] } listWithA
    [109] MetricConfig.init (SeriesNameType.mk [98]) none (by decide) (by decide)).2.2.2.1

/-- C9 (`mkOutputAggregator`).  With the effective granularity (the display
granularity when that is non-zero, the granularity otherwise): no aggregator
when it is 0; otherwise a Max output aggregator built with the cursor,
`getMetricDataType(kind)` and the effective granularity for the kinds
`MAX_UINT64`, `MAX_INT64`, `MAX_FLOAT64`, a Sum output aggregator for
`COUNTER_UINT64`, `COUNTER_INT64`, `COUNTER_FLOAT64`, and no aggregator for
every other kind. -/
theorem mkOutputAggregator_spec {κ : Type} (cursor : κ) (config : MetricConfig) :
    mkOutputAggregator cursor config =
      if effectiveGranularity config = 0 then none
      else if config.kind = MetricKind.MAX_UINT64 ∨ config.kind = MetricKind.MAX_INT64 ∨
          config.kind = MetricKind.MAX_FLOAT64 then
        some (OutputAggregator.MaxOutputAggregator cursor (getMetricDataType config.kind)
          (effectiveGranularity config))
      else if config.kind = MetricKind.COUNTER_UINT64 ∨ config.kind = MetricKind.COUNTER_INT64 ∨
          config.kind = MetricKind.COUNTER_FLOAT64 then
        some (OutputAggregator.SumOutputAggregator cursor (getMetricDataType config.kind)
          (effectiveGranularity config))
      else none := by
  have hg : (if config.display_granularity = 0 then config.granularity
      else config.display_granularity) = effectiveGranularity config := by
    unfold effectiveGranularity
    by_cases h : config.display_granularity = 0 <;> simp [h]
  unfold mkOutputAggregator
  simp only [hg]
  by_cases h0 : effectiveGranularity config = 0
  · simp [h0]
  · simp only [h0, if_false]
    cases hk : config.kind <;> simp

/-- C10 (`Metric::setConfig`).  For a config whose kind is `UNKNOWN` it returns
an error with code `EARG` and leaves the metric, hence `getConfig()` and
`getInputAggregator()`, as before.  For every other kind it returns success,
`getConfig()` is the given config and the input aggregator is the one
`mkInputAggregator` gives for it, which is none exactly when the granularity is
0 or the kind is neither `MAX_*` nor `COUNTER_*`. -/
theorem setConfig_spec (m : Metric) (config : MetricConfig) :
    (config.kind = MetricKind.UNKNOWN →
      (m.setConfig config).1.is_success = false ∧ (m.setConfig config).1.code = "EARG" ∧
      (m.setConfig config).2 = m ∧
      (m.setConfig config).2.getConfig = m.getConfig ∧
      (m.setConfig config).2.getInputAggregator = m.getInputAggregator) ∧
    (config.kind ≠ MetricKind.UNKNOWN →
      (m.setConfig config).1 = ReturnCode.success ∧
      (m.setConfig config).2.getConfig = config ∧
      (m.setConfig config).2.getInputAggregator = mkInputAggregator config) ∧
    (mkInputAggregator config = none ↔
      config.granularity = 0 ∨ (config.kind.isMax = false ∧ config.kind.isCounter = false)) := by
  refine ⟨?_, ?_, ?_⟩
  · intro h
    simp [Metric.setConfig, h, ReturnCode.error]
  · intro h
    simp [Metric.setConfig, h, Metric.getConfig, Metric.getInputAggregator]
  · unfold mkInputAggregator
    by_cases h0 : config.granularity = 0
    · simp [h0]
    · simp only [h0, if_false, false_or]
      cases hk : config.kind <;> simp [MetricKind.isMax, MetricKind.isCounter]

/-- Witness for C10: a metric keyed `"m"` given a config without a kind, and
one given a `MAX_UINT64` config with granularity 60. -/
theorem setConfig_spec_witness :
    ((Metric.init "m").setConfig MetricConfig.init).2 = Metric.init "m" ∧
      ((Metric.init "m").setConfig
          { kind := MetricKind.MAX_UINT64, granularity := 60, display_granularity := 0,
            is_valid := true }).2.getInputAggregator
        = mkInputAggregator
          { kind := MetricKind.MAX_UINT64, granularity := 60, display_granularity := 0,
            is_valid := true } :=
  ⟨((setConfig_spec (Metric.init "m") MetricConfig.init).1 rfl).2.2.1,
   ((setConfig_spec (Metric.init "m")
      { kind := MetricKind.MAX_UINT64, granularity := 60, display_granularity := 0,
        is_valid := true }).2.1 (by decide)).2.2⟩

/-! ## Series metadata: what `encode` writes, `decode` reads back -/

theorem readVarUIntAux_bytes (fuel : Nat) : ∀ (v i acc : Nat) (rest : List Nat),
    0 < fuel → v < 128 ^ fuel →
    readVarUIntAux fuel i acc (varUIntBytes fuel v ++ rest)
      = some ((acc + v * 2 ^ (7 * i)) % 2 ^ 64, rest) := by
  induction fuel with
  | zero => intro v i acc rest h; omega
  | succ fuel ih =>
    intro v i acc rest _ hv
    by_cases hsmall : v < 128
    · simp [varUIntBytes, readVarUIntAux, hsmall, Nat.mod_eq_of_lt hsmall]
    · have hfuel : 0 < fuel := by
        rcases Nat.eq_zero_or_pos fuel with h0 | h0
        · subst h0
          simp at hv
          omega
        · exact h0
      have hdiv : v / 128 < 128 ^ fuel := by
        rw [Nat.div_lt_iff_lt_mul (by decide)]
        rw [Nat.pow_succ] at hv
        exact hv
      have hbyte : ¬ v % 128 + 128 < 128 := by omega
      have hmod : (v % 128 + 128) % 128 = v % 128 := by omega
      simp only [varUIntBytes, hsmall, if_false, List.cons_append, readVarUIntAux, hbyte, hmod]
      rw [ih (v / 128) (i + 1) _ rest hfuel hdiv]
      have hpow : 2 ^ (7 * (i + 1)) = 128 * 2 ^ (7 * i) := by
        rw [show 7 * (i + 1) = 7 + 7 * i by ring, Nat.pow_add]
      have hv2 : v % 128 * 2 ^ (7 * i) + v / 128 * 2 ^ (7 * (i + 1)) = v * 2 ^ (7 * i) := by
        rw [hpow]
        have := Nat.mod_add_div v 128
        calc v % 128 * 2 ^ (7 * i) + v / 128 * (128 * 2 ^ (7 * i))
            = (v % 128 + 128 * (v / 128)) * 2 ^ (7 * i) := by ring
          _ = v * 2 ^ (7 * i) := by rw [this]
      rw [Nat.add_assoc, hv2]

theorem readVarUInt_bytes (v : Nat) (rest : List Nat) (hv : v < 2 ^ 64) :
    readVarUInt (IStream.ofBytes (varUIntBytes 10 v ++ rest))
      = (true, v, IStream.ofBytes rest) := by
  have h := readVarUIntAux_bytes 10 v 0 0 rest (by decide)
    (Nat.lt_of_lt_of_le hv (by norm_num))
  simp only [Nat.mul_zero, Nat.pow_zero, Nat.mul_one, Nat.zero_add, Nat.mod_eq_of_lt hv] at h
  simp [readVarUInt, IStream.ofBytes, h]

theorem read_prefix (data rest : List Nat) :
    (IStream.ofBytes (data ++ rest)).read data.length = (data, IStream.ofBytes rest) := by
  simp [IStream.read, IStream.ofBytes]

theorem stringResize_length (s : List Nat) (n : Nat) : (stringResize s n).length = n := by
  simp only [stringResize, List.length_append, List.length_take, List.length_replicate]
  omega

theorem stringResize_drop (s : List Nat) (n : Nat) : (stringResize s n).drop n = [] :=
  List.drop_eq_nil_of_le (by rw [stringResize_length])

theorem encode_good (m : MetricSeriesMetadata) (os : OStream) (hos : os.failbit = false) :
    m.encode os = (true,
      { bytes := os.bytes ++ varUIntBytes 10 (m.metric_id.length % 2 ^ 64) ++ m.metric_id
          ++ varUIntBytes 10 (m.series_name.name.length % 2 ^ 64) ++ m.series_name.name,
        failbit := false }) := by
  simp [MetricSeriesMetadata.encode, writeVarUInt, OStream.write, hos]

theorem decode_encoded (m m0 : MetricSeriesMetadata) (rest : List Nat)
    (h1 : m.metric_id.length < 2 ^ 64) (h2 : m.series_name.name.length < 2 ^ 64) :
    m0.decode (IStream.ofBytes
        (varUIntBytes 10 m.metric_id.length ++ m.metric_id
          ++ varUIntBytes 10 m.series_name.name.length ++ m.series_name.name ++ rest))
      = (true, m, IStream.ofBytes rest) := by
  have e1 : varUIntBytes 10 m.metric_id.length ++ m.metric_id
        ++ varUIntBytes 10 m.series_name.name.length ++ m.series_name.name ++ rest
      = varUIntBytes 10 m.metric_id.length ++ (m.metric_id
        ++ (varUIntBytes 10 m.series_name.name.length ++ (m.series_name.name ++ rest))) := by
    simp [List.append_assoc]
  rw [e1]
  unfold MetricSeriesMetadata.decode
  simp only [readVarUInt_bytes _ _ h1, readVarUInt_bytes _ _ h2, Bool.not_true,
    Bool.false_eq_true, if_false, stringResize_length, read_prefix, List.drop_length,
    List.append_nil]
  simp only [stringResize_drop, List.append_nil, IStream.ofBytes, Bool.false_eq_true, if_false]

/-- C11 (series metadata round trip).  For every metric id and every series
name (byte strings of any content, empty ones included; their lengths fit
`uint64_t`), `encode` into a stream that has not failed returns true and
appends the varint of the metric id length, the metric id bytes, the varint of
the name length and the name bytes, in that order; `decode` applied to exactly
the bytes written (whatever the metadata object held before, and whatever
follows them in the stream) returns true, yields the original metric id and
series name and stops right behind them. -/
theorem metadata_round_trip (m m0 : MetricSeriesMetadata) (os : OStream) (rest : List Nat)
    (hos : os.failbit = false) (h1 : m.metric_id.length < 2 ^ 64)
    (h2 : m.series_name.name.length < 2 ^ 64) :
    (m.encode os).1 = true ∧
      (m.encode os).2.bytes
        = os.bytes ++ varUIntBytes 10 m.metric_id.length ++ m.metric_id
          ++ varUIntBytes 10 m.series_name.name.length ++ m.series_name.name ∧
      (m0.decode (IStream.ofBytes ((m.encode os).2.bytes.drop os.bytes.length))).1 = true ∧
      (m0.decode (IStream.ofBytes
        ((m.encode os).2.bytes.drop os.bytes.length))).2.1.metric_id = m.metric_id ∧
      (m0.decode (IStream.ofBytes
        ((m.encode os).2.bytes.drop os.bytes.length))).2.1.series_name.name
          = m.series_name.name ∧
      m0.decode (IStream.ofBytes ((m.encode os).2.bytes.drop os.bytes.length ++ rest))
        = (true, m, IStream.ofBytes rest) := by
  have he := encode_good m os hos
  rw [Nat.mod_eq_of_lt h1, Nat.mod_eq_of_lt h2] at he
  have hdrop : (m.encode os).2.bytes.drop os.bytes.length
      = varUIntBytes 10 m.metric_id.length ++ m.metric_id
        ++ varUIntBytes 10 m.series_name.name.length ++ m.series_name.name := by
    rw [he]
    simp only [List.append_assoc]
    exact List.drop_left _ _
  have hd := decode_encoded m m0 [] h1 h2
  rw [List.append_nil] at hd
  rw [hdrop, hd, decode_encoded m m0 rest h1 h2, he]
  exact ⟨rfl, rfl, rfl, rfl, rfl, rfl⟩

/-- Witness for C11: the metric id `"cpu"` and the empty series name, decoded
into an object that held other data. -/
theorem metadata_round_trip_witness :
    MetricSeriesMetadata.decode { metric_id := [9, 9, 9, 9, 9], series_name := { name := [7] } }
        (IStream.ofBytes
          (((MetricSeriesMetadata.encode
              { metric_id := [99, 112, 117], series_name := { name := [] } }
              OStream.empty).2.bytes.drop OStream.empty.bytes.length) ++ []))
      = (true, { metric_id := [99, 112, 117], series_name := { name := [] } },
          IStream.ofBytes []) :=
  (metadata_round_trip { metric_id := [99, 112, 117], series_name := { name := [] } }
    { metric_id := [9, 9, 9, 9, 9], series_name := { name := [7] } } OStream.empty []
    rfl (by decide) (by decide)).2.2.2.2.2

/-! ## The series list cursor -/

theorem fetchNext_spins (series_list : MetricSeriesList) (fuel : Nat) :
    ∀ (c : MetricSeriesListCursor) (id : SeriesIDType), c.snapshot_[c.cursor_]? = some id →
      mapFind series_list.series_by_id_ id.id = none →
      MetricSeriesListCursor.fetchNext series_list fuel c = none := by
  induction fuel with
  | zero => intro c id _ _; rfl
  | succ fuel ih =>
    intro c id hid hmiss
    have hfind : series_list.findSeries id c.series_ = (false, c.series_) := by
      simp [MetricSeriesList.findSeries, hmiss]
    simp only [MetricSeriesListCursor.fetchNext, hid, hfind, Bool.false_eq_true, if_false]
    exact ih c id hid hmiss

theorem fetchNext_returns (series_list : MetricSeriesList) (fuel : Nat) :
    ∀ (c c1 : MetricSeriesListCursor) (b : Bool),
      MetricSeriesListCursor.fetchNext series_list fuel c = some (b, c1) →
      c1.cursor_ = c.cursor_ ∧ c1.snapshot_ = c.snapshot_ ∧ c1.valid_ = c.valid_ ∧
      ((b = false ∧ c.snapshot_[c.cursor_]? = none) ∨
        (b = true ∧ ∃ id s, c.snapshot_[c.cursor_]? = some id ∧
          mapFind series_list.series_by_id_ id.id = some s ∧ c1.series_ = some s)) := by
  induction fuel with
  | zero =>
    intro c c1 b h
    simp [MetricSeriesListCursor.fetchNext] at h
  | succ fuel ih =>
    intro c c1 b h
    simp only [MetricSeriesListCursor.fetchNext] at h
    cases hid : c.snapshot_[c.cursor_]? with
    | none =>
      simp only [hid] at h
      injection h with h
      injection h with hb hc
      subst hb
      subst hc
      exact ⟨rfl, rfl, rfl, Or.inl ⟨rfl, rfl⟩⟩
    | some id =>
      simp only [hid] at h
      cases hm : mapFind series_list.series_by_id_ id.id with
      | none =>
        have hfind : series_list.findSeries id c.series_ = (false, c.series_) := by
          simp [MetricSeriesList.findSeries, hm]
        simp only [hfind, Bool.false_eq_true, if_false] at h
        rw [fetchNext_spins series_list fuel c id hid hm] at h
        cases h
      | some s =>
        have hfind : series_list.findSeries id c.series_ = (true, some s) := by
          simp [MetricSeriesList.findSeries, hm]
        simp only [hfind, if_true] at h
        injection h with h
        injection h with hb hc
        subst hb
        subst hc
        exact ⟨rfl, rfl, rfl, Or.inr ⟨rfl, id, s, rfl, hm, rfl⟩⟩

/-- C12 fails on the code.  With the series list that holds only the series
with id 5: constructing the cursor over the snapshot `[7, 5]` never returns,
whatever the fuel, because `fetchNext` does not move `cursor_` past the id 7
that `findSeries` misses; and the cursor constructed over `[5, 7]` points at
id 5, but its `next()` never returns. -/
theorem fetchNext_never_returns_on_missing_id :
    (∀ fuel, MetricSeriesListCursor.create listWithA
        [SeriesIDType.mk 7, SeriesIDType.mk 5] fuel = none) ∧
      MetricSeriesListCursor.create listWithA [SeriesIDType.mk 5, SeriesIDType.mk 7] 1
        = some { valid_ := true, snapshot_ := [SeriesIDType.mk 5, SeriesIDType.mk 7],
                 cursor_ := 0,
                 series_ := some (MetricSeries.mk (SeriesIDType.mk 5) (SeriesNameType.mk [97])) } ∧
      ∀ fuel, MetricSeriesListCursor.next listWithA fuel
        { valid_ := true, snapshot_ := [SeriesIDType.mk 5, SeriesIDType.mk 7], cursor_ := 0,
          series_ := some (MetricSeries.mk (SeriesIDType.mk 5) (SeriesNameType.mk [97])) }
        = none := by
  refine ⟨?_, by decide, ?_⟩
  · intro fuel
    have := fetchNext_spins listWithA fuel
      { valid_ := true, snapshot_ := [SeriesIDType.mk 7, SeriesIDType.mk 5], cursor_ := 0,
        series_ := none } (SeriesIDType.mk 7) (by decide) (by decide)
    simp only [MetricSeriesListCursor.create, this]
  · intro fuel
    have := fetchNext_spins listWithA fuel
      { valid_ := true, snapshot_ := [SeriesIDType.mk 5, SeriesIDType.mk 7], cursor_ := 1,
        series_ := some (MetricSeries.mk (SeriesIDType.mk 5) (SeriesNameType.mk [97])) }
      (SeriesIDType.mk 7) (by decide) (by decide)
    simp only [MetricSeriesListCursor.next]
    exact this

end fnordmetric
